import Mathlib

/-!
Verification of the route-optimization and canvas-graph core of the mQuest
trip-planning application.

The definitions below are a shallow embedding of the TypeScript source:

* `src/app/api/optimize/route.ts` — `getOptimizedRoute` (AI-backed optimizer
  with deterministic fallback) and the `POST` handler;
* the trip page (`areAllBoxesConnected`, `buildOrderedRoute`,
  `generateGoogleMapsUrl`, `exportToGoogleMaps`);
* `src/components/Canvas.tsx` — `fetchTravelTime`, `finishConnection`,
  `deleteBox`.

External effects (the AI bridge call, the `/api/plan` fetch) are modelled by an
explicit outcome parameter: `none` / an error constructor stands for every
failure that the surrounding `try`/`catch` of the source converts into the
fallback or sentinel behaviour, and `some`-values stand for a successfully
parsed payload.  JavaScript objects keyed by box ids are modelled as functions
guarded by membership in the box-id set; the guard returns `[]` exactly where
the original code would have no key.
-/

/-- Attachment side of a connection (the TS union type `"top" | "bottom"`). -/
inductive Side where
  | top
  | bottom
deriving DecidableEq, Repr

/-- A location box on the canvas (interface `Box` of the source: `id`, `x`,
`y`, `title`, `description`, `address`). -/
structure Box where
  id : String
  x : Int
  y : Int
  title : String
  description : String
  address : String
deriving DecidableEq, Repr

/-- A directed connection between two boxes (interface `Connection`).  The TS
field names `from` and `to` are Lean keywords and are rendered `fromId` and
`toId`. -/
structure Conn where
  fromId : String
  fromSide : Side
  toId : String
  toSide : Side
  duration : Option String
deriving DecidableEq, Repr

/-- The `{ path, connections }` object returned by `getOptimizedRoute`, and
also the shape of the JSON object parsed out of the AI response. -/
structure RouteResult where
  path : List String
  connections : List Conn
deriving DecidableEq, Repr

/-- Size of the JavaScript `Set` built from a list (`new Set(l).size`). -/
def setSize (l : List String) : Nat := l.dedup.length

/-- The validation block of `getOptimizedRoute`, applied to the JSON object
parsed from the AI response: the path must have one id per box, must start at
`startId` and end at `endId`, and the id sets of path and boxes must agree in
size and containment.  Each failed check `throw`s in the source; conjunction of
the checks models reaching the `return result` line. -/
def validateResult (boxes : List Box) (startId endId : String) (r : RouteResult) : Bool :=
  r.path.length == boxes.length &&
  r.path.head? == some startId &&
  r.path.getLast? == some endId &&
  setSize (boxes.map Box.id) == setSize r.path &&
  (boxes.map Box.id).all (fun i => r.path.contains i)

/-- The `for` loop of the fallback branch: one connection per consecutive pair
of the fallback path, exiting bottom, entering top, duration initialised to the
pending sentinel `"Calculating..."`. -/
def chainConns : List String → List Conn
  | a :: b :: rest =>
      { fromId := a, fromSide := Side.bottom, toId := b, toSide := Side.top,
        duration := some "Calculating..." } :: chainConns (b :: rest)
  | _ => []

/-- The fallback branch of `getOptimizedRoute`: every box id other than the
start and end ids, in input order, wrapped by the start and end ids. -/
def fallbackRoute (boxes : List Box) (startId endId : String) : RouteResult :=
  let otherBoxes := boxes.filter (fun b => b.id ≠ startId ∧ b.id ≠ endId)
  let fallbackPath := startId :: (otherBoxes.map Box.id ++ [endId])
  { path := fallbackPath, connections := chainConns fallbackPath }

/-- `getOptimizedRoute` of `src/app/api/optimize/route.ts`.  `ai : Option
RouteResult` is the outcome of the AI exchange: `none` covers the bridge
error, the 15s timeout, a response with no JSON object, a JSON parse failure
and a payload whose `path`/`connections` are missing or not arrays; `some r`
is a structurally well-typed parsed payload, which is then validated.  Every
failure (including a missing start or end box, whose `throw` sits inside the
same `try`) lands in the `catch` block and yields the fallback. -/
def getOptimizedRoute (boxes : List Box) (startId endId : String)
    (ai : Option RouteResult) : RouteResult :=
  if ((boxes.find? (fun b => b.id = startId)).isNone ∨
      (boxes.find? (fun b => b.id = endId)).isNone) then
    fallbackRoute boxes startId endId
  else
    match ai with
    | none => fallbackRoute boxes startId endId
    | some r =>
        if validateResult boxes startId endId r then r
        else fallbackRoute boxes startId endId

/-- Responses of the `POST` handler: `success` is the 200 payload (path,
connections, message), `error` carries the HTTP status and message of the
`NextResponse.json({ error: ... }, { status: ... })` branches. -/
inductive PostResponse where
  | success (path : List String) (connections : List Conn) (message : String)
  | error (status : Nat) (msg : String)
deriving DecidableEq, Repr

/-- The `POST` handler of `src/app/api/optimize/route.ts`, modelled from the
point where the request body has been parsed (`boxes? = none` stands for a
body without a `boxes` field; empty strings are the falsy string ids).  The
handler rejects missing fields and an absent start or end box with status 400,
and otherwise returns the result of `getOptimizedRoute` with status 200. -/
def POST (boxes? : Option (List Box)) (startBoxId endBoxId : String)
    (ai : Option RouteResult) : PostResponse :=
  match boxes? with
  | none => PostResponse.error 400 "Missing required fields: boxes, startBoxId, endBoxId"
  | some boxes =>
      if startBoxId = "" ∨ endBoxId = "" then
        PostResponse.error 400 "Missing required fields: boxes, startBoxId, endBoxId"
      else if ((boxes.find? (fun b => b.id = startBoxId)).isNone ∨
               (boxes.find? (fun b => b.id = endBoxId)).isNone) then
        PostResponse.error 400 "Start or end box not found"
      else
        let result := getOptimizedRoute boxes startBoxId endBoxId ai
        PostResponse.success result.path result.connections
          ("Optimized route found with " ++ toString result.path.length ++ " stops")

/-- An element of the adjacency lists built by `buildOrderedRoute`: the
neighbour's id together with the side information carried over from the
connection. -/
structure AdjEntry where
  id : String
  fromSide : Side
  toSide : Side
deriving DecidableEq, Repr

/-- One step of the adjacency-building `forEach` of `areAllBoxesConnected`:
`adjacencyList[conn.from].push(conn.to)` then
`adjacencyList[conn.to].push(conn.from)`, restricted to the list of the key
`x`. -/
def pushNeighbors (x : String) (acc : List String) (c : Conn) : List String :=
  let acc1 := if c.fromId = x then acc ++ [c.toId] else acc
  if c.toId = x then acc1 ++ [c.fromId] else acc1

/-- The adjacency list of key `x` after processing all connections
(`areAllBoxesConnected` variant, plain ids). -/
def adjIds (conns : List Conn) (x : String) : List String :=
  conns.foldl (pushNeighbors x) []

/-- One step of the adjacency-building `forEach` of `buildOrderedRoute`, which
pushes records `{ id, fromSide, toSide }` (sides swapped for the reverse
direction). -/
def pushEntries (x : String) (acc : List AdjEntry) (c : Conn) : List AdjEntry :=
  let acc1 := if c.fromId = x then
      acc ++ [{ id := c.toId, fromSide := c.fromSide, toSide := c.toSide }] else acc
  if c.toId = x then
    acc1 ++ [{ id := c.fromId, fromSide := c.toSide, toSide := c.fromSide }] else acc1

/-- The adjacency list of key `x` after processing all connections
(`buildOrderedRoute` variant, with side records). -/
def adjEntries (conns : List Conn) (x : String) : List AdjEntry :=
  conns.foldl (pushEntries x) []

/-- The set of box ids: the keys of the JS adjacency objects. -/
def idsOf (boxes : List Box) : Finset String := (boxes.map Box.id).toFinset

/-- `adjacencyList[x]` of `areAllBoxesConnected`: the object only has keys for
box ids, so lookups of other ids yield the empty list. -/
def adjOf (boxes : List Box) (conns : List Conn) (x : String) : List String :=
  if x ∈ idsOf boxes then adjIds conns x else []

/-- `adjacencyList[x]` of `buildOrderedRoute` (side-record variant). -/
def adjEntriesOf (boxes : List Box) (conns : List Conn) (x : String) : List AdjEntry :=
  if x ∈ idsOf boxes then adjEntries conns x else []

theorem adjOf_eq_nil {boxes : List Box} {conns : List Conn} {x : String}
    (h : x ∉ idsOf boxes) : adjOf boxes conns x = [] := if_neg h

/-- The `while (stack.length > 0)` loop of `areAllBoxesConnected`.  The JS
array's top (its end) is the head of the Lean list, so the `forEach` of pushes
appends the reversed filtered neighbour list at the front.  The filter uses
the visited set that already contains `current`, exactly as in the source
(`visited.add(current)` precedes the pushes). -/
def dfsLoop (boxes : List Box) (conns : List Conn) :
    List String → Finset String → Finset String
  | [], visited => visited
  | current :: stack, visited =>
      if current ∈ visited then dfsLoop boxes conns stack visited
      else
        dfsLoop boxes conns
          (((adjOf boxes conns current).filter
              (fun n => n ∉ insert current visited)).reverse ++ stack)
          (insert current visited)
termination_by stack visited => ((idsOf boxes \ visited).card, stack.length)
decreasing_by
  · exact Prod.Lex.right _ (Nat.lt_succ_self _)
  · rename_i hvis
    by_cases hu : current ∈ idsOf boxes
    · apply Prod.Lex.left
      apply Finset.card_lt_card
      constructor
      · intro a ha
        simp only [Finset.mem_sdiff, Finset.mem_insert] at ha ⊢
        exact ⟨ha.1, fun h => ha.2 (Or.inr h)⟩
      · intro hsub
        have hc : current ∈ idsOf boxes \ visited := Finset.mem_sdiff.mpr ⟨hu, hvis⟩
        have hc2 := hsub hc
        rw [Finset.mem_sdiff] at hc2
        exact hc2.2 (Finset.mem_insert_self _ _)
    · have hnil : adjOf boxes conns current = [] := adjOf_eq_nil hu
      have hcard : (idsOf boxes \ insert current visited).card =
          (idsOf boxes \ visited).card := by
        congr 1
        ext a
        simp only [Finset.mem_sdiff, Finset.mem_insert]
        constructor
        · rintro ⟨ha, hb⟩; exact ⟨ha, fun h => hb (Or.inr h)⟩
        · rintro ⟨ha, hb⟩
          refine ⟨ha, ?_⟩
          rintro (rfl | h)
          · exact hu ha
          · exact hb h
      rw [hnil, hcard]
      exact Prod.Lex.right _ (by simp)

/-- `areAllBoxesConnected` of the trip page: special cases for zero boxes, one
box and no connections, then an iterative depth-first search from the first
box over the undirected adjacency lists; true iff the visited set covers every
box. -/
def areAllBoxesConnected (boxes : List Box) (conns : List Conn) : Bool :=
  match boxes with
  | [] => false
  | b0 :: _ =>
      if boxes.length == 1 then true
      else if conns.length == 0 then false
      else (dfsLoop boxes conns [b0.id] ∅).card == boxes.length

/-- The `while (route.length < boxes.length)` loop of `buildOrderedRoute`.
`fuel` is `boxes.length - route.length`, the exact number of remaining
iterations the loop condition allows; the loop also exits early when the
current box has no unvisited neighbour or the neighbour's box is not found. -/
def routeLoop (boxes : List Box) (conns : List Conn) :
    Nat → List Box → Finset String → String → List Box
  | 0, route, _, _ => route
  | fuel + 1, route, visited, current =>
      match (adjEntriesOf boxes conns current).filter (fun e => e.id ∉ visited) with
      | [] => route
      | e :: _ =>
          match boxes.find? (fun b => b.id = e.id) with
          | none => route
          | some nextBox =>
              routeLoop boxes conns fuel (route ++ [nextBox])
                (insert nextBox.id visited) nextBox.id

/-- `buildOrderedRoute` of the trip page: find the degree-1 endpoints, start
the traversal at the first one (or at the first box when there is none), then
greedily follow the first unvisited neighbour. -/
def buildOrderedRoute (boxes : List Box) (conns : List Conn) : List Box :=
  match boxes with
  | [] => []
  | b0 :: _ =>
      if boxes.length == 1 then [b0]
      else
        let endpoints := boxes.filter
          (fun b => (adjEntriesOf boxes conns b.id).length == 1)
        let startBox := match endpoints with
          | [] => b0
          | s :: _ => s
        routeLoop boxes conns (boxes.length - 1) [startBox] {startBox.id} startBox.id

/-- The start box that `buildOrderedRoute` picks on a multi-box canvas: the
first degree-1 endpoint in box order, or the first box when no endpoint
exists. -/
def startBoxOf (boxes : List Box) (conns : List Conn) (b0 : Box) : Box :=
  match boxes.filter (fun b => (adjEntriesOf boxes conns b.id).length == 1) with
  | [] => b0
  | s :: _ => s

/-- `generateGoogleMapsUrl`: the Google Maps directions base URL followed by
the slash-joined encoded addresses (title when the address is blank).  The
encoder `encodeURIComponent` is an opaque browser builtin, passed in as a
parameter. -/
def generateGoogleMapsUrl (enc : String → String) (route : List Box) : String :=
  if route.length == 0 then ""
  else
    "https://www.google.com/maps/dir/" ++
      String.intercalate "/"
        (route.map (fun b =>
          enc (if b.address ≠ "" ∧ b.address.trim ≠ "" then b.address else b.title)))

/-- Outcomes of `exportToGoogleMaps`: the connectivity rejection alert, the
empty-route alert, opening the generated URL, or the no-URL alert. -/
inductive ExportResult where
  | rejectedNotConnected
  | rejectedEmpty
  | openUrl (url : String)
  | rejectedNoUrl
deriving DecidableEq, Repr

/-- `exportToGoogleMaps` of the trip page: refuse (with an alert) unless
`areAllBoxesConnected` holds, then linearize the graph and open the generated
Google Maps URL. -/
def exportToGoogleMaps (enc : String → String) (boxes : List Box)
    (conns : List Conn) : ExportResult :=
  if !areAllBoxesConnected boxes conns then ExportResult.rejectedNotConnected
  else
    let route := buildOrderedRoute boxes conns
    if route.length == 0 then ExportResult.rejectedEmpty
    else
      let url := generateGoogleMapsUrl enc route
      if url ≠ "" then ExportResult.openUrl url else ExportResult.rejectedNoUrl

/-- JavaScript `\s` on the character set the repository's strings use (space,
tab, newline, carriage return, vertical tab, form feed). -/
def isSpaceJS (c : Char) : Bool :=
  c = ' ' || c = '\t' || c = '\n' || c = '\r' || c = '\x0b' || c = '\x0c'

/-- Split a character list at the longest prefix satisfying `p` (a greedy
`\d*` / `\s*` regex atom). -/
def takeSplit (p : Char → Bool) (cs : List Char) : List Char × List Char :=
  (cs.takeWhile p, cs.dropWhile p)

/-- Case-insensitive literal token match: `tok` is given in lowercase; on
success, return the remaining input. -/
def stripTokenCI : List Char → List Char → Option (List Char)
  | [], cs => some cs
  | _ :: _, [] => none
  | t :: ts, c :: cs => if c.toLower = t then stripTokenCI ts cs else none

/-- Greedy ordered alternation of optional literal tokens (the regex atoms
`(?:hour|hr|h)?` and `(?:minute|min|m)?` under the `i` flag): try each
alternative in order, consume the first that matches, otherwise consume
nothing.  Returns the consumed characters (original casing) and the rest. -/
def tryTokens (toks : List (List Char)) (cs : List Char) : List Char × List Char :=
  match toks with
  | [] => ([], cs)
  | t :: ts =>
      match stripTokenCI t cs with
      | some rest => (cs.take t.length, rest)
      | none => tryTokens ts cs

/-- The regex `/(\d+\s*(?:hour|hr|h)?\s*\d*\s*(?:minute|min|m)?s?)/i` applied
at a position whose first character must be a digit.  Every atom after the
mandatory `\d+` can match the empty string, so greedy left-to-right matching
needs no backtracking; the result is the matched substring. -/
def matchAtPos (cs : List Char) : Option (List Char) :=
  let (d1, r1) := takeSplit Char.isDigit cs
  if d1 = [] then none
  else
    let (s1, r2) := takeSplit isSpaceJS r1
    let (h, r3) := tryTokens [['h','o','u','r'], ['h','r'], ['h']] r2
    let (s2, r4) := takeSplit isSpaceJS r3
    let (d2, r5) := takeSplit Char.isDigit r4
    let (s3, r6) := takeSplit isSpaceJS r5
    let (m, r7) := tryTokens [['m','i','n','u','t','e'], ['m','i','n'], ['m']] r6
    let sfx := match r7 with
      | c :: _ => if c.toLower = 's' then [c] else []
      | [] => []
    some (d1 ++ s1 ++ h ++ s2 ++ d2 ++ s3 ++ m ++ sfx)

/-- Scan for the first match position (only a digit can start a match). -/
def findTimeMatch : List Char → Option (List Char)
  | [] => none
  | c :: cs => if c.isDigit then matchAtPos (c :: cs) else findTimeMatch cs

/-- `data.text.match(/(\d+\s*(?:hour|hr|h)?\s*\d*\s*(?:minute|min|m)?s?)/i)`:
the matched substring (`timeMatch[0]`), or `none` when the regex does not
match anywhere. -/
def timeMatch (s : String) : Option String :=
  (findTimeMatch s.data).map List.asString

/-- Outcome of the `fetch('/api/plan', ...)` exchange inside
`fetchTravelTime`: a thrown network/parse error, or a parsed JSON body with
its `ok` flag and optional `text` field. -/
inductive PlanOutcome where
  | fetchError
  | response (okFlag : Bool) (text : Option String)
deriving DecidableEq, Repr

/-- `fetchTravelTime` of `Canvas.tsx`: any thrown error, a falsy `ok`, a
missing/empty `text`, or an unmatched regex yields the sentinel `"Unknown"`;
otherwise the matched duration substring is returned.  The address arguments
only feed the prompt text and do not influence the result. -/
def fetchTravelTime (fromAddress toAddress : String) (outcome : PlanOutcome) : String :=
  match outcome with
  | PlanOutcome.fetchError => "Unknown"
  | PlanOutcome.response okFlag text? =>
      match text? with
      | none => "Unknown"
      | some t =>
          if okFlag && t ≠ "" then
            match timeMatch t with
            | some m => m
            | none => "Unknown"
          else "Unknown"

/-- Result of `finishConnection`: the final connection list (after the
asynchronous duration update has been applied) and whether `fetchTravelTime`
was invoked. -/
structure FinishResult where
  connections : List Conn
  fetchInvoked : Bool
deriving DecidableEq, Repr

/-- Two connections join the same unordered pair of boxes (the duplicate test
of `finishConnection`, applied to the candidate pair `(a, b)`). -/
def joinsPair (c : Conn) (a b : String) : Bool :=
  (c.fromId = a && c.toId = b) || (c.fromId = b && c.toId = a)

/-- `finishConnection` of `Canvas.tsx`.  `connectingFrom` is the component
state set by `startConnection`; `fetchOutcome` is the outcome of the travel
time lookup when it is invoked.  A connection is only created when the drag
ends on a different box and no connection joins the two boxes in either
direction; its pending `"Calculating..."` duration is then replaced by the
fetched duration when both boxes exist with non-blank addresses, and cleared
(`undefined`) otherwise. -/
def finishConnection (boxes : List Box) (conns : List Conn)
    (connectingFrom : Option (String × Side)) (boxId : String) (side : Side)
    (fetchOutcome : PlanOutcome) : FinishResult :=
  match connectingFrom with
  | none => { connections := conns, fetchInvoked := false }
  | some (cfId, cfSide) =>
      if cfId = boxId then { connections := conns, fetchInvoked := false }
      else
        let fromBox := boxes.find? (fun b => b.id = cfId)
        let toBox := boxes.find? (fun b => b.id = boxId)
        match conns.find? (fun c => joinsPair c cfId boxId) with
        | some _ => { connections := conns, fetchInvoked := false }
        | none =>
            let newConnection : Conn :=
              { fromId := cfId, fromSide := cfSide, toId := boxId, toSide := side,
                duration := some "Calculating..." }
            let newConnections := conns ++ [newConnection]
            match fromBox, toBox with
            | some fb, some tb =>
                if fb.address ≠ "" ∧ fb.address.trim ≠ "" ∧
                   tb.address ≠ "" ∧ tb.address.trim ≠ "" then
                  let travelTime := fetchTravelTime fb.address tb.address fetchOutcome
                  { connections := newConnections.map (fun c =>
                      if c = newConnection then { c with duration := some travelTime }
                      else c),
                    fetchInvoked := true }
                else
                  { connections := newConnections.map (fun c =>
                      if c = newConnection then { c with duration := none } else c),
                    fetchInvoked := false }
            | _, _ =>
                { connections := newConnections.map (fun c =>
                    if c = newConnection then { c with duration := none } else c),
                  fetchInvoked := false }

/-- `deleteBox` of `Canvas.tsx`: drop the box with the given id and every
connection that has it as one of its endpoints. -/
def deleteBox (boxes : List Box) (conns : List Conn) (id : String) :
    List Box × List Conn :=
  (boxes.filter (fun b => b.id ≠ id),
   conns.filter (fun c => c.fromId ≠ id ∧ c.toId ≠ id))

/-- The undirected adjacency relation induced by the connection set, via the
adjacency lists that the trip page builds. -/
def AdjRel (boxes : List Box) (conns : List Conn) (a b : String) : Prop :=
  b ∈ adjOf boxes conns a

/-- Reachability by any number of adjacency steps (the spec's "reachable via
the connection set treated as undirected"). -/
def Reaches (boxes : List Box) (conns : List Conn) (a b : String) : Prop :=
  Relation.ReflTransGen (AdjRel boxes conns) a b

/-- The connection multiset realizes the node sequence `chain` as a simple
undirected chain: every connection joins some pair of consecutive chain
elements, and each consecutive pair is joined by exactly one connection. -/
def RealizesChain (chain : List String) (conns : List Conn) : Prop :=
  (∀ c ∈ conns, ∃ i < chain.length - 1,
      joinsPair c (chain.getD i "") (chain.getD (i + 1) "") = true) ∧
  (∀ i < chain.length - 1,
      conns.countP (fun c => joinsPair c (chain.getD i "") (chain.getD (i + 1) "")) = 1)

instance (chain : List String) (conns : List Conn) :
    Decidable (RealizesChain chain conns) := by
  unfold RealizesChain
  infer_instance

/-- The connection-set invariant maintained by the canvas editor: no self
loops, and no two connections joining the same unordered pair of boxes. -/
def ConnInvariant (conns : List Conn) : Prop :=
  (∀ c ∈ conns, c.fromId ≠ c.toId) ∧
  conns.Pairwise (fun c1 c2 => joinsPair c1 c2.fromId c2.toId = false)

instance (conns : List Conn) : Decidable (ConnInvariant conns) := by
  unfold ConnInvariant
  infer_instance

/-- Per-connection contribution to the plain-id adjacency list of `x` (closed
form of one `forEach` step). -/
def adjContrib (x : String) (c : Conn) : List String :=
  (if c.fromId = x then [c.toId] else []) ++ (if c.toId = x then [c.fromId] else [])

/-- Per-connection contribution to the side-record adjacency list of `x`. -/
def entryContrib (x : String) (c : Conn) : List AdjEntry :=
  (if c.fromId = x then [{ id := c.toId, fromSide := c.fromSide, toSide := c.toSide }] else []) ++
  (if c.toId = x then [{ id := c.fromId, fromSide := c.toSide, toSide := c.fromSide }] else [])

/-- Example data: a two-box canvas. -/
def exBoxA : Box := { id := "a", x := 0, y := 0, title := "A", description := "", address := "1 First St" }

def exBoxB : Box := { id := "b", x := 1, y := 1, title := "B", description := "", address := "2 Second St" }

def exBoxC : Box := { id := "c", x := 2, y := 2, title := "C", description := "", address := "3 Third St" }

def exBoxD : Box := { id := "d", x := 3, y := 3, title := "D", description := "", address := "" }

/-- An AI payload for the two-box canvas whose path validates but whose
connection list is empty. -/
def exCandNoConns : RouteResult := { path := ["a", "b"], connections := [] }

/-- A triangle: three boxes cyclically connected. -/
def triBoxes : List Box := [exBoxA, exBoxB, exBoxC]

def triConns : List Conn :=
  [{ fromId := "a", fromSide := Side.bottom, toId := "b", toSide := Side.top, duration := none },
   { fromId := "b", fromSide := Side.bottom, toId := "c", toSide := Side.top, duration := none },
   { fromId := "c", fromSide := Side.bottom, toId := "a", toSide := Side.top, duration := none }]

/-- A disconnected canvas: three boxes, one connection joining only two. -/
def discConns : List Conn :=
  [{ fromId := "a", fromSide := Side.bottom, toId := "b", toSide := Side.top, duration := none }]

/-- Two-box and four-box canvases for concrete instantiations. -/
def twoBoxes : List Box := [exBoxA, exBoxB]

def fourBoxes : List Box := [exBoxA, exBoxB, exBoxC, exBoxD]

/-- A three-box chain a—b—c, with the boxes listed out of chain order and the
connections listed reversed and out of order. -/
def chainBoxes : List Box := [exBoxB, exBoxA, exBoxC]

def chainConnsEx : List Conn :=
  [{ fromId := "c", fromSide := Side.bottom, toId := "b", toSide := Side.top, duration := none },
   { fromId := "a", fromSide := Side.bottom, toId := "b", toSide := Side.top, duration := none }]

theorem filter_map_comm {α β : Type} (f : α → β) (q : β → Bool) :
    ∀ l : List α, (l.filter (fun a => q (f a))).map f = (l.map f).filter q := by
  intro l
  induction l with
  | nil => rfl
  | cons a l ih =>
      by_cases h : q (f a) = true
      · simp [List.filter_cons, h, ih]
      · simp only [Bool.not_eq_true] at h
        simp [List.filter_cons, h, ih]

theorem eq_singleton_of_forall_eq_of_count {α : Type} [DecidableEq α] :
    ∀ (l : List α) (a : α), (∀ x ∈ l, x = a) → l.count a = 1 → l = [a] := by
  intro l a hall hc
  induction l with
  | nil => simp [List.count_nil] at hc
  | cons x xs ih =>
      have hx : x = a := hall x (List.mem_cons_self x xs)
      subst hx
      have hxs : xs.count x = 0 := by
        have := hc
        rw [List.count_cons_self] at this
        omega
      have hnil : xs = [] := by
        cases xs with
        | nil => rfl
        | cons y ys =>
            have hy : y = x := hall y (by simp)
            subst hy
            rw [List.count_cons_self] at hxs
            omega
      rw [hnil]

theorem length_eq_count_add_count {α : Type} [DecidableEq α] :
    ∀ (l : List α) (a b : α), a ≠ b → (∀ x ∈ l, x = a ∨ x = b) →
      l.length = l.count a + l.count b := by
  intro l a b hab hall
  induction l with
  | nil => simp
  | cons x xs ih =>
      have hx := hall x (List.mem_cons_self x xs)
      have hxs : xs.length = xs.count a + xs.count b :=
        ih (fun y hy => hall y (List.mem_cons_of_mem x hy))
      rcases hx with rfl | rfl
      · rw [List.count_cons_self, List.count_cons_of_ne (fun h => hab h.symm)]
        simp [hxs]
        omega
      · rw [List.count_cons_self, List.count_cons_of_ne hab]
        simp [hxs]
        omega

theorem pushNeighbors_eq (x : String) (acc : List String) (c : Conn) :
    pushNeighbors x acc c = acc ++ adjContrib x c := by
  unfold pushNeighbors adjContrib
  by_cases h1 : c.fromId = x <;> by_cases h2 : c.toId = x <;> simp [h1, h2]

theorem pushEntries_eq (x : String) (acc : List AdjEntry) (c : Conn) :
    pushEntries x acc c = acc ++ entryContrib x c := by
  unfold pushEntries entryContrib
  by_cases h1 : c.fromId = x <;> by_cases h2 : c.toId = x <;> simp [h1, h2]

theorem adjIds_eq_join (conns : List Conn) (x : String) :
    adjIds conns x = (conns.map (adjContrib x)).flatten := by
  suffices h : ∀ acc, conns.foldl (pushNeighbors x) acc = acc ++ (conns.map (adjContrib x)).flatten by
    simpa using h []
  induction conns with
  | nil => intro acc; simp
  | cons c cs ih =>
      intro acc
      simp only [List.foldl_cons, List.map_cons, List.join, pushNeighbors_eq]
      rw [ih]
      simp

theorem adjEntries_eq_join (conns : List Conn) (x : String) :
    adjEntries conns x = (conns.map (entryContrib x)).flatten := by
  suffices h : ∀ acc, conns.foldl (pushEntries x) acc = acc ++ (conns.map (entryContrib x)).flatten by
    simpa using h []
  induction conns with
  | nil => intro acc; simp
  | cons c cs ih =>
      intro acc
      simp only [List.foldl_cons, List.map_cons, List.join, pushEntries_eq]
      rw [ih]
      simp

theorem entryContrib_map_id (x : String) (c : Conn) :
    (entryContrib x c).map AdjEntry.id = adjContrib x c := by
  unfold entryContrib adjContrib
  by_cases h1 : c.fromId = x <;> by_cases h2 : c.toId = x <;> simp [h1, h2]

theorem adjEntries_map_id (conns : List Conn) (x : String) :
    (adjEntries conns x).map AdjEntry.id = adjIds conns x := by
  rw [adjEntries_eq_join, adjIds_eq_join, List.map_flatten, List.map_map]
  congr 1
  apply List.map_congr_left
  intro c _
  exact entryContrib_map_id x c

theorem adjEntriesOf_map_id (boxes : List Box) (conns : List Conn) (x : String) :
    (adjEntriesOf boxes conns x).map AdjEntry.id = adjOf boxes conns x := by
  unfold adjEntriesOf adjOf
  by_cases h : x ∈ idsOf boxes
  · simp [h, adjEntries_map_id]
  · simp [h]

theorem mem_adjIds {conns : List Conn} {x y : String} :
    y ∈ adjIds conns x ↔
      ∃ c ∈ conns, (c.fromId = x ∧ c.toId = y) ∨ (c.toId = x ∧ c.fromId = y) := by
  rw [adjIds_eq_join]
  simp only [List.mem_flatten, List.mem_map]
  constructor
  · rintro ⟨l, ⟨c, hc, rfl⟩, hy⟩
    refine ⟨c, hc, ?_⟩
    unfold adjContrib at hy
    rcases List.mem_append.mp hy with h | h
    · by_cases h1 : c.fromId = x
      · simp [h1] at h
        exact Or.inl ⟨h1, h.symm⟩
      · simp [h1] at h
    · by_cases h2 : c.toId = x
      · simp [h2] at h
        exact Or.inr ⟨h2, h.symm⟩
      · simp [h2] at h
  · rintro ⟨c, hc, h | h⟩
    · exact ⟨adjContrib x c, ⟨c, hc, rfl⟩,
        by unfold adjContrib; simp [h.1, h.2]⟩
    · exact ⟨adjContrib x c, ⟨c, hc, rfl⟩,
        by unfold adjContrib; simp [h.1, h.2]⟩

theorem joinsPair_iff {c : Conn} {a b : String} :
    joinsPair c a b = true ↔
      (c.fromId = a ∧ c.toId = b) ∨ (c.fromId = b ∧ c.toId = a) := by
  unfold joinsPair
  simp [Bool.or_eq_true, Bool.and_eq_true, decide_eq_true_eq]

theorem count_adjContrib {x y : String} (hxy : x ≠ y) (c : Conn) :
    (adjContrib x c).count y = if joinsPair c x y then 1 else 0 := by
  have hyx : ¬(y = x) := fun h => hxy h.symm
  by_cases hj : joinsPair c x y = true
  · rcases joinsPair_iff.mp hj with ⟨h1, h2⟩ | ⟨h1, h2⟩
    · have hto : ¬(c.toId = x) := fun h => hyx (h2 ▸ h)
      simp [adjContrib, hj, h1, h2, hto, hyx, List.count_cons, List.count_nil]
    · have hfrom : ¬(c.fromId = x) := fun h => hyx (h1 ▸ h)
      simp [adjContrib, hj, h1, h2, hfrom, hyx, List.count_cons, List.count_nil]
  · rw [if_neg hj]
    rw [List.count_eq_zero]
    intro hmem
    apply hj
    rw [joinsPair_iff]
    unfold adjContrib at hmem
    rcases List.mem_append.mp hmem with h | h
    · by_cases h1 : c.fromId = x
      · simp [h1] at h
        exact Or.inl ⟨h1, h.symm⟩
      · simp [h1] at h
    · by_cases h2 : c.toId = x
      · simp [h2] at h
        exact Or.inr ⟨h.symm, h2⟩
      · simp [h2] at h

theorem count_adjIds {conns : List Conn} {x y : String} (hxy : x ≠ y) :
    (adjIds conns x).count y = conns.countP (fun c => joinsPair c x y) := by
  rw [adjIds_eq_join]
  induction conns with
  | nil => simp
  | cons c cs ih =>
      simp only [List.map_cons, List.flatten_cons, List.count_append, List.countP_cons, ih]
      rw [count_adjContrib hxy c]
      by_cases h : joinsPair c x y = true <;> simp [h] <;> omega

theorem dfsLoop_nil (boxes : List Box) (conns : List Conn) (visited : Finset String) :
    dfsLoop boxes conns [] visited = visited := by
  rw [dfsLoop]

theorem dfsLoop_cons_mem (boxes : List Box) (conns : List Conn)
    (current : String) (stack : List String) (visited : Finset String)
    (h : current ∈ visited) :
    dfsLoop boxes conns (current :: stack) visited = dfsLoop boxes conns stack visited := by
  rw [dfsLoop, if_pos h]

theorem dfsLoop_cons_not_mem (boxes : List Box) (conns : List Conn)
    (current : String) (stack : List String) (visited : Finset String)
    (h : current ∉ visited) :
    dfsLoop boxes conns (current :: stack) visited =
      dfsLoop boxes conns
        (((adjOf boxes conns current).filter
            (fun n => n ∉ insert current visited)).reverse ++ stack)
        (insert current visited) := by
  rw [dfsLoop, if_neg h]

theorem dfsLoop_visited_subset (boxes : List Box) (conns : List Conn) :
    ∀ (stack : List String) (visited : Finset String),
      visited ⊆ dfsLoop boxes conns stack visited := by
  intro stack visited
  induction stack, visited using dfsLoop.induct boxes conns with
  | case1 visited => rw [dfsLoop_nil]
  | case2 current stack visited hmem ih =>
      rw [dfsLoop_cons_mem _ _ _ _ _ hmem]; exact ih
  | case3 current stack visited hmem ih =>
      rw [dfsLoop_cons_not_mem _ _ _ _ _ hmem]
      exact fun a ha => ih (Finset.mem_insert_of_mem ha)

theorem dfsLoop_stack_subset (boxes : List Box) (conns : List Conn) :
    ∀ (stack : List String) (visited : Finset String) (x : String),
      x ∈ stack → x ∈ dfsLoop boxes conns stack visited := by
  intro stack visited
  induction stack, visited using dfsLoop.induct boxes conns with
  | case1 visited => intro x hx; cases hx
  | case2 current stack visited hmem ih =>
      intro x hx
      rw [dfsLoop_cons_mem _ _ _ _ _ hmem]
      rcases List.mem_cons.mp hx with rfl | hx'
      · exact dfsLoop_visited_subset boxes conns stack visited hmem
      · exact ih x hx'
  | case3 current stack visited hmem ih =>
      intro x hx
      rw [dfsLoop_cons_not_mem _ _ _ _ _ hmem]
      rcases List.mem_cons.mp hx with rfl | hx'
      · exact dfsLoop_visited_subset boxes conns _ _ (Finset.mem_insert_self x visited)
      · exact ih x (List.mem_append_right _ hx')

theorem dfsLoop_sound (boxes : List Box) (conns : List Conn) (P : String → Prop)
    (hP : ∀ a b, P a → b ∈ adjOf boxes conns a → P b) :
    ∀ (stack : List String) (visited : Finset String),
      (∀ v ∈ visited, P v) → (∀ s ∈ stack, P s) →
      ∀ x ∈ dfsLoop boxes conns stack visited, P x := by
  intro stack visited
  induction stack, visited using dfsLoop.induct boxes conns with
  | case1 visited =>
      intro hv _ x hx
      rw [dfsLoop_nil] at hx
      exact hv x hx
  | case2 current stack visited hmem ih =>
      intro hv hs x hx
      rw [dfsLoop_cons_mem _ _ _ _ _ hmem] at hx
      exact ih hv (fun s h => hs s (List.mem_cons_of_mem _ h)) x hx
  | case3 current stack visited hmem ih =>
      intro hv hs x hx
      rw [dfsLoop_cons_not_mem _ _ _ _ _ hmem] at hx
      have hcur : P current := hs current (List.mem_cons_self _ _)
      refine ih ?_ ?_ x hx
      · intro v hv'
        rcases Finset.mem_insert.mp hv' with rfl | h
        · exact hcur
        · exact hv v h
      · intro s hsmem
        rcases List.mem_append.mp hsmem with h | h
        · have hadj : s ∈ adjOf boxes conns current := by
            have := List.mem_reverse.mp h
            exact (List.mem_filter.mp this).1
          exact hP current s hcur hadj
        · exact hs s (List.mem_cons_of_mem _ h)

theorem dfsLoop_closed (boxes : List Box) (conns : List Conn) :
    ∀ (stack : List String) (visited : Finset String),
      (∀ y ∈ visited, ∀ z ∈ adjOf boxes conns y, z ∈ visited ∨ z ∈ stack) →
      ∀ y ∈ dfsLoop boxes conns stack visited, ∀ z ∈ adjOf boxes conns y,
        z ∈ dfsLoop boxes conns stack visited := by
  intro stack visited
  induction stack, visited using dfsLoop.induct boxes conns with
  | case1 visited =>
      intro hinv y hy z hz
      rw [dfsLoop_nil] at hy ⊢
      rcases hinv y hy z hz with h | h
      · exact h
      · cases h
  | case2 current stack visited hmem ih =>
      intro hinv y hy z hz
      rw [dfsLoop_cons_mem _ _ _ _ _ hmem] at hy ⊢
      refine ih ?_ y hy z hz
      intro y' hy' z' hz'
      rcases hinv y' hy' z' hz' with h | h
      · exact Or.inl h
      · rcases List.mem_cons.mp h with rfl | h'
        · exact Or.inl hmem
        · exact Or.inr h'
  | case3 current stack visited hmem ih =>
      intro hinv y hy z hz
      rw [dfsLoop_cons_not_mem _ _ _ _ _ hmem] at hy ⊢
      refine ih ?_ y hy z hz
      intro y' hy' z' hz'
      rcases Finset.mem_insert.mp hy' with rfl | hy''
      · by_cases hzv : z' ∈ insert y' visited
        · exact Or.inl hzv
        · refine Or.inr (List.mem_append_left _ ?_)
          rw [List.mem_reverse]
          rw [List.mem_filter]
          exact ⟨hz', by simpa using hzv⟩
      · rcases hinv y' hy'' z' hz' with h | h
        · exact Or.inl (Finset.mem_insert_of_mem h)
        · rcases List.mem_cons.mp h with rfl | h'
          · exact Or.inl (Finset.mem_insert_self _ _)
          · exact Or.inr (List.mem_append_right _ h')

theorem dfsLoop_spec (boxes : List Box) (conns : List Conn) (s : String) :
    ∀ x, x ∈ dfsLoop boxes conns [s] ∅ ↔ Reaches boxes conns s x := by
  intro x
  constructor
  · intro hx
    refine dfsLoop_sound boxes conns (Reaches boxes conns s)
      (fun a b ha hb => Relation.ReflTransGen.tail ha hb) [s] ∅ ?_ ?_ x hx
    · intro v hv; cases hv
    · intro t ht
      rcases List.mem_cons.mp ht with rfl | h
      · exact Relation.ReflTransGen.refl
      · cases h
  · intro hx
    induction hx with
    | refl => exact dfsLoop_stack_subset boxes conns [s] ∅ s (List.mem_cons_self _ _)
    | tail _ hadj ih =>
        exact dfsLoop_closed boxes conns [s] ∅ (fun y hy => absurd hy (Finset.not_mem_empty y))
          _ ih _ hadj

theorem adjOf_mem_univ {boxes : List Box} {conns : List Conn} {a b : String}
    (hEnds : ∀ c ∈ conns, c.fromId ∈ idsOf boxes ∧ c.toId ∈ idsOf boxes)
    (h : b ∈ adjOf boxes conns a) : a ∈ idsOf boxes ∧ b ∈ idsOf boxes := by
  unfold adjOf at h
  by_cases ha : a ∈ idsOf boxes
  · rw [if_pos ha] at h
    refine ⟨ha, ?_⟩
    rcases mem_adjIds.mp h with ⟨c, hc, ⟨_, rfl⟩ | ⟨_, rfl⟩⟩
    · exact (hEnds c hc).2
    · exact (hEnds c hc).1
  · rw [if_neg ha] at h
    cases h

theorem adjRel_symm {boxes : List Box} {conns : List Conn} {a b : String}
    (hEnds : ∀ c ∈ conns, c.fromId ∈ idsOf boxes ∧ c.toId ∈ idsOf boxes)
    (h : AdjRel boxes conns a b) : AdjRel boxes conns b a := by
  have hb : b ∈ idsOf boxes := (adjOf_mem_univ hEnds h).2
  unfold AdjRel adjOf at h ⊢
  by_cases ha : a ∈ idsOf boxes
  · rw [if_pos ha] at h
    rw [if_pos hb]
    rcases mem_adjIds.mp h with ⟨c, hc, ⟨h1, h2⟩ | ⟨h1, h2⟩⟩
    · exact mem_adjIds.mpr ⟨c, hc, Or.inr ⟨h2, h1⟩⟩
    · exact mem_adjIds.mpr ⟨c, hc, Or.inl ⟨h2, h1⟩⟩
  · rw [if_neg ha] at h
    cases h

theorem reaches_symm {boxes : List Box} {conns : List Conn} {a b : String}
    (hEnds : ∀ c ∈ conns, c.fromId ∈ idsOf boxes ∧ c.toId ∈ idsOf boxes)
    (h : Reaches boxes conns a b) : Reaches boxes conns b a := by
  induction h with
  | refl => exact Relation.ReflTransGen.refl
  | tail _ hadj ih =>
      exact Relation.ReflTransGen.trans
        (Relation.ReflTransGen.single (adjRel_symm hEnds hadj)) ih

theorem areAllBoxesConnected_iff (boxes : List Box) (conns : List Conn)
    (hne : boxes ≠ []) (hnd : (boxes.map Box.id).Nodup)
    (hEnds : ∀ c ∈ conns, c.fromId ∈ idsOf boxes ∧ c.toId ∈ idsOf boxes) :
    (areAllBoxesConnected boxes conns = true ↔
      ∀ b1 ∈ boxes, ∀ b2 ∈ boxes, Reaches boxes conns b1.id b2.id) := by
  obtain ⟨b0, rest, rfl⟩ : ∃ b0 rest, boxes = b0 :: rest := by
    cases boxes with
    | nil => exact absurd rfl hne
    | cons b0 rest => exact ⟨b0, rest, rfl⟩
  cases rest with
  | nil =>
      constructor
      · intro _ b1 hb1 b2 hb2
        have h1 : b1 = b0 := by simpa using hb1
        have h2 : b2 = b0 := by simpa using hb2
        subst h1; subst h2
        exact Relation.ReflTransGen.refl
      · intro _
        rfl
  | cons r1 rest' =>
      have hlen1 : (((b0 :: r1 :: rest').length == 1) = true) = False := by
        simp [List.length_cons]
      have hid01 : b0.id ≠ r1.id := by
        simp only [List.map_cons, List.nodup_cons] at hnd
        intro h
        exact hnd.1 (by rw [h]; exact List.mem_cons_self _ _)
      cases hconns : conns with
      | nil =>
          have hL : areAllBoxesConnected (b0 :: r1 :: rest') [] = false := by
            unfold areAllBoxesConnected
            simp
          rw [hL]
          simp only [Bool.false_eq_true, false_iff]
          intro h
          have hr : Reaches (b0 :: r1 :: rest') [] b0.id r1.id :=
            h b0 (by simp) r1 (by simp)
          rcases Relation.ReflTransGen.cases_head hr with heq | ⟨c, hstep, _⟩
          · exact hid01 heq
          · unfold AdjRel adjOf at hstep
            by_cases hm : b0.id ∈ idsOf (b0 :: r1 :: rest')
            · rw [if_pos hm] at hstep
              cases hstep
            · rw [if_neg hm] at hstep
              cases hstep
      | cons c0 cs =>
          have hL : areAllBoxesConnected (b0 :: r1 :: rest') (c0 :: cs) =
              ((dfsLoop (b0 :: r1 :: rest') (c0 :: cs) [b0.id] ∅).card ==
                (b0 :: r1 :: rest').length) := by
            unfold areAllBoxesConnected
            simp
          subst hconns
          rw [hL]
          set boxes := b0 :: r1 :: rest' with hboxes
          set conns := c0 :: cs with hconns2
          have hb0 : b0.id ∈ idsOf boxes := by
            rw [hboxes]
            unfold idsOf
            simp
          have hsub : ∀ x ∈ dfsLoop boxes conns [b0.id] ∅, x ∈ idsOf boxes := by
            refine dfsLoop_sound boxes conns (fun z => z ∈ idsOf boxes) ?_ [b0.id] ∅ ?_ ?_
            · intro a b _ hb
              exact (adjOf_mem_univ hEnds hb).2
            · intro v hv; cases hv
            · intro s hs
              rcases List.mem_cons.mp hs with rfl | h
              · exact hb0
              · cases h
          have hcard_univ : (idsOf boxes).card = boxes.length := by
            unfold idsOf
            rw [List.toFinset_card_of_nodup hnd]
            simp
          have hmemid : ∀ b ∈ boxes, b.id ∈ idsOf boxes := by
            intro b hb
            unfold idsOf
            rw [List.mem_toFinset]
            exact List.mem_map_of_mem Box.id hb
          constructor
          · intro h
            have hcard : (dfsLoop boxes conns [b0.id] ∅).card = boxes.length := by
              rwa [beq_iff_eq] at h
            have hseteq : dfsLoop boxes conns [b0.id] ∅ = idsOf boxes := by
              apply Finset.eq_of_subset_of_card_le
              · intro x hx
                exact hsub x hx
              · rw [hcard, hcard_univ]
            have hreach : ∀ x ∈ idsOf boxes, Reaches boxes conns b0.id x := by
              intro x hx
              rw [← hseteq] at hx
              exact (dfsLoop_spec boxes conns b0.id x).mp hx
            intro b1 hb1 b2 hb2
            have h1 : Reaches boxes conns b0.id b1.id := hreach b1.id (hmemid b1 hb1)
            have h2 : Reaches boxes conns b0.id b2.id := hreach b2.id (hmemid b2 hb2)
            exact Relation.ReflTransGen.trans (reaches_symm hEnds h1) h2
          · intro h
            have hmemb0 : b0 ∈ boxes := by rw [hboxes]; simp
            have huniv_sub : idsOf boxes ⊆ dfsLoop boxes conns [b0.id] ∅ := by
              intro x hx
              have hxid : ∃ b ∈ boxes, b.id = x := by
                unfold idsOf at hx
                rw [List.mem_toFinset, List.mem_map] at hx
                exact hx
              obtain ⟨b, hb, rfl⟩ := hxid
              exact (dfsLoop_spec boxes conns b0.id b.id).mpr (h b0 hmemb0 b hb)
            have hseteq : dfsLoop boxes conns [b0.id] ∅ = idsOf boxes := by
              apply Finset.Subset.antisymm
              · intro x hx; exact hsub x hx
              · exact huniv_sub
            rw [hseteq, hcard_univ]
            exact beq_self_eq_true _

theorem routeLoop_zero (boxes : List Box) (conns : List Conn)
    (route : List Box) (visited : Finset String) (current : String) :
    routeLoop boxes conns 0 route visited current = route := rfl

theorem routeLoop_succ (boxes : List Box) (conns : List Conn) (fuel : Nat)
    (route : List Box) (visited : Finset String) (current : String) :
    routeLoop boxes conns (fuel + 1) route visited current =
      match (adjEntriesOf boxes conns current).filter (fun e => e.id ∉ visited) with
      | [] => route
      | e :: _ =>
          match boxes.find? (fun b => b.id = e.id) with
          | none => route
          | some nextBox =>
              routeLoop boxes conns fuel (route ++ [nextBox])
                (insert nextBox.id visited) nextBox.id := rfl

theorem filter_id_map (l : List AdjEntry) (visited : Finset String) :
    (l.filter (fun e => e.id ∉ visited)).map AdjEntry.id =
      (l.map AdjEntry.id).filter (fun z => z ∉ visited) :=
  filter_map_comm AdjEntry.id (fun z => decide (z ∉ visited)) l

theorem map_eq_singleton {α β : Type} {f : α → β} {l : List α} {a : β}
    (h : l.map f = [a]) : ∃ x, l = [x] ∧ f x = a := by
  cases l with
  | nil => cases h
  | cons x xs =>
      cases xs with
      | nil =>
          refine ⟨x, rfl, ?_⟩
          simpa using h
      | cons y ys => simp at h

theorem routeLoop_sound (boxes : List Box) (conns : List Conn) (s : String) :
    ∀ (fuel : Nat) (route : List Box) (visited : Finset String) (current : String),
      (∀ b ∈ route, b ∈ boxes) →
      (route.map Box.id).Nodup →
      visited = (route.map Box.id).toFinset →
      (∀ b ∈ route, Reaches boxes conns s b.id) →
      Reaches boxes conns s current →
      ((∀ b ∈ routeLoop boxes conns fuel route visited current, b ∈ boxes) ∧
       ((routeLoop boxes conns fuel route visited current).map Box.id).Nodup ∧
       (∀ b ∈ routeLoop boxes conns fuel route visited current,
          Reaches boxes conns s b.id)) := by
  intro fuel
  induction fuel with
  | zero =>
      intro route visited current hmem hnd hvis hreach _
      rw [routeLoop_zero]
      exact ⟨hmem, hnd, hreach⟩
  | succ fuel ih =>
      intro route visited current hmem hnd hvis hreach hcur
      rw [routeLoop_succ]
      cases hfil : (adjEntriesOf boxes conns current).filter (fun e => e.id ∉ visited) with
      | nil => exact ⟨hmem, hnd, hreach⟩
      | cons e es =>
          dsimp only
          cases hfind : boxes.find? (fun b => b.id = e.id) with
          | none => exact ⟨hmem, hnd, hreach⟩
          | some nextBox =>
              have hnb_id : nextBox.id = e.id := by
                have := List.find?_some hfind
                simpa using this
              have hnb_mem : nextBox ∈ boxes := List.mem_of_find?_eq_some hfind
              have he_mem : e ∈ (adjEntriesOf boxes conns current).filter
                  (fun e => e.id ∉ visited) := by
                rw [hfil]; exact List.mem_cons_self _ _
              have he_adj : e.id ∈ adjOf boxes conns current := by
                rw [← adjEntriesOf_map_id boxes conns current]
                exact List.mem_map_of_mem AdjEntry.id (List.mem_filter.mp he_mem).1
              have he_not_vis : e.id ∉ visited := by
                have := (List.mem_filter.mp he_mem).2
                simpa using this
              have hreach_next : Reaches boxes conns s nextBox.id := by
                rw [hnb_id]
                exact Relation.ReflTransGen.tail hcur he_adj
              refine ih (route ++ [nextBox]) (insert nextBox.id visited) nextBox.id
                ?_ ?_ ?_ ?_ hreach_next
              · intro b hb
                rcases List.mem_append.mp hb with h | h
                · exact hmem b h
                · rw [List.mem_singleton.mp h]
                  exact hnb_mem
              · rw [List.map_append]
                rw [List.nodup_append]
                refine ⟨hnd, List.nodup_singleton _, ?_⟩
                intro z hz hz'
                have : z = nextBox.id := by simpa using hz'
                subst this
                apply he_not_vis
                rw [hvis, List.mem_toFinset]
                rw [← hnb_id]
                exact hz
              · rw [List.map_append, List.toFinset_append, hvis]
                simp [Finset.insert_eq, Finset.union_comm]
              · intro b hb
                rcases List.mem_append.mp hb with h | h
                · exact hreach b h
                · rw [List.mem_singleton.mp h]
                  exact hreach_next

theorem buildOrderedRoute_eq (b0 : Box) (rest : List Box) (conns : List Conn)
    (hlen : ¬(((b0 :: rest).length == 1) = true)) :
    buildOrderedRoute (b0 :: rest) conns =
      routeLoop (b0 :: rest) conns ((b0 :: rest).length - 1)
        [startBoxOf (b0 :: rest) conns b0] {(startBoxOf (b0 :: rest) conns b0).id}
        (startBoxOf (b0 :: rest) conns b0).id := by
  unfold buildOrderedRoute startBoxOf
  dsimp only
  rw [if_neg hlen]

theorem startBoxOf_mem (boxes : List Box) (conns : List Conn) (b0 : Box)
    (hb0 : b0 ∈ boxes) : startBoxOf boxes conns b0 ∈ boxes := by
  unfold startBoxOf
  cases h : boxes.filter (fun b => (adjEntriesOf boxes conns b.id).length == 1) with
  | nil => exact hb0
  | cons s tl =>
      have hs : s ∈ boxes.filter (fun b => (adjEntriesOf boxes conns b.id).length == 1) := by
        rw [h]
        exact List.mem_cons_self _ _
      exact List.mem_of_mem_filter hs

theorem buildOrderedRoute_sound (boxes : List Box) (conns : List Conn)
    (h2 : 2 ≤ boxes.length) :
    ∃ startBox ∈ boxes,
      (∀ b ∈ buildOrderedRoute boxes conns, b ∈ boxes) ∧
      ((buildOrderedRoute boxes conns).map Box.id).Nodup ∧
      (∀ b ∈ buildOrderedRoute boxes conns, Reaches boxes conns startBox.id b.id) := by
  obtain ⟨b0, rest, rfl⟩ : ∃ b0 rest, boxes = b0 :: rest := by
    cases boxes with
    | nil => simp at h2
    | cons b0 rest => exact ⟨b0, rest, rfl⟩
  have hlen : ¬(((b0 :: rest).length == 1) = true) := by
    simp only [beq_iff_eq]
    omega
  rw [buildOrderedRoute_eq b0 rest conns hlen]
  have hsb : startBoxOf (b0 :: rest) conns b0 ∈ b0 :: rest :=
    startBoxOf_mem _ conns b0 (List.mem_cons_self _ _)
  refine ⟨startBoxOf (b0 :: rest) conns b0, hsb, ?_⟩
  refine routeLoop_sound (b0 :: rest) conns (startBoxOf (b0 :: rest) conns b0).id
    ((b0 :: rest).length - 1) [startBoxOf (b0 :: rest) conns b0]
    {(startBoxOf (b0 :: rest) conns b0).id} (startBoxOf (b0 :: rest) conns b0).id
    ?_ ?_ ?_ ?_ Relation.ReflTransGen.refl
  · intro b hb
    rw [List.mem_singleton.mp hb]
    exact hsb
  · simp
  · simp
  · intro b hb
    rw [List.mem_singleton.mp hb]
    exact Relation.ReflTransGen.refl

theorem buildOrderedRoute_strict_subset (boxes : List Box) (conns : List Conn)
    (h2 : 2 ≤ boxes.length) (hnd : (boxes.map Box.id).Nodup)
    (hEnds : ∀ c ∈ conns, c.fromId ∈ idsOf boxes ∧ c.toId ∈ idsOf boxes)
    (hdisc : ¬ ∀ b1 ∈ boxes, ∀ b2 ∈ boxes, Reaches boxes conns b1.id b2.id) :
    (buildOrderedRoute boxes conns).length < boxes.length := by
  obtain ⟨startBox, hsb, hmem, hnodup, hreach⟩ := buildOrderedRoute_sound boxes conns h2
  push_neg at hdisc
  obtain ⟨b1, hb1, b2, hb2, hnr⟩ := hdisc
  have hmiss : ∃ bm ∈ boxes, ¬ Reaches boxes conns startBox.id bm.id := by
    by_cases h1 : Reaches boxes conns startBox.id b1.id
    · refine ⟨b2, hb2, fun h2' => hnr ?_⟩
      exact Relation.ReflTransGen.trans (reaches_symm hEnds h1) h2'
    · exact ⟨b1, hb1, h1⟩
  obtain ⟨bm, hbm, hbm_nr⟩ := hmiss
  have hbm_not : bm.id ∉ (buildOrderedRoute boxes conns).map Box.id := by
    intro hmm
    rw [List.mem_map] at hmm
    obtain ⟨b', hb', hbid⟩ := hmm
    exact hbm_nr (hbid ▸ hreach b' hb')
  have hsubset : ((buildOrderedRoute boxes conns).map Box.id).toFinset ⊆
      (idsOf boxes).erase bm.id := by
    intro z hz
    rw [List.mem_toFinset] at hz
    rw [Finset.mem_erase]
    constructor
    · intro hzeq
      exact hbm_not (hzeq ▸ hz)
    · rw [List.mem_map] at hz
      obtain ⟨b', hb', rfl⟩ := hz
      unfold idsOf
      rw [List.mem_toFinset]
      exact List.mem_map_of_mem Box.id (hmem b' hb')
  have hbmid : bm.id ∈ idsOf boxes := by
    unfold idsOf
    rw [List.mem_toFinset]
    exact List.mem_map_of_mem Box.id hbm
  have hcard : ((buildOrderedRoute boxes conns).map Box.id).toFinset.card ≤
      (idsOf boxes).card - 1 := by
    calc ((buildOrderedRoute boxes conns).map Box.id).toFinset.card
        ≤ ((idsOf boxes).erase bm.id).card := Finset.card_le_card hsubset
      _ = (idsOf boxes).card - 1 := Finset.card_erase_of_mem hbmid
  have hlen2 : (buildOrderedRoute boxes conns).length =
      ((buildOrderedRoute boxes conns).map Box.id).toFinset.card := by
    rw [List.toFinset_card_of_nodup hnodup, List.length_map]
  have huniv : (idsOf boxes).card = boxes.length := by
    unfold idsOf
    rw [List.toFinset_card_of_nodup hnd, List.length_map]
  omega

theorem chain_getD_inj {chain : List String} (hnd : chain.Nodup) {i j : Nat}
    (hi : i < chain.length) (hj : j < chain.length)
    (h : chain.getD i "" = chain.getD j "") : i = j := by
  rw [List.getD_eq_getElem chain "" hi, List.getD_eq_getElem chain "" hj] at h
  exact (List.Nodup.getElem_inj_iff hnd).mp h

theorem chain_getD_ne {chain : List String} (hnd : chain.Nodup) {i j : Nat}
    (hi : i < chain.length) (hj : j < chain.length) (hij : i ≠ j) :
    chain.getD i "" ≠ chain.getD j "" :=
  fun h => hij (chain_getD_inj hnd hi hj h)

theorem joinsPair_comm (c : Conn) (a b : String) :
    joinsPair c a b = joinsPair c b a := by
  unfold joinsPair
  rw [Bool.or_comm]

theorem mem_adj_chain {chain : List String} {conns : List Conn}
    (hnd : chain.Nodup) (hreal : RealizesChain chain conns)
    {k : Nat} (hk : k < chain.length) {y : String}
    (hy : y ∈ adjIds conns (chain.getD k "")) :
    (1 ≤ k ∧ y = chain.getD (k - 1) "") ∨
    (k + 1 < chain.length ∧ y = chain.getD (k + 1) "") := by
  obtain ⟨c, hc, hcase⟩ := mem_adjIds.mp hy
  obtain ⟨j, hj, hjoins⟩ := hreal.1 c hc
  have hj1 : j + 1 < chain.length := by omega
  have hjlt : j < chain.length := by omega
  rcases joinsPair_iff.mp hjoins with ⟨hf, ht⟩ | ⟨hf, ht⟩ <;>
    rcases hcase with ⟨h1, h2⟩ | ⟨h1, h2⟩
  · -- c : chain j → chain (j+1), matched as (from = x, to = y)
    have hkj : k = j := chain_getD_inj hnd hk hjlt (h1.symm.trans hf)
    refine Or.inr ⟨by omega, ?_⟩
    rw [← h2, ht, hkj]
  · -- c : chain j → chain (j+1), matched as (to = x, from = y)
    have hkj : k = j + 1 := chain_getD_inj hnd hk hj1 (h1.symm.trans ht)
    refine Or.inl ⟨by omega, ?_⟩
    rw [← h2, hf, hkj]
    have hidx : j + 1 - 1 = j := by omega
    rw [hidx]
  · -- c : chain (j+1) → chain j, matched as (from = x, to = y)
    have hkj : k = j + 1 := chain_getD_inj hnd hk hj1 (h1.symm.trans hf)
    refine Or.inl ⟨by omega, ?_⟩
    rw [← h2, ht, hkj]
    have hidx : j + 1 - 1 = j := by omega
    rw [hidx]
  · -- c : chain (j+1) → chain j, matched as (to = x, from = y)
    have hkj : k = j := chain_getD_inj hnd hk hjlt (h1.symm.trans ht)
    refine Or.inr ⟨by omega, ?_⟩
    rw [← h2, hf, hkj]

theorem count_adj_next {chain : List String} {conns : List Conn}
    (hnd : chain.Nodup) (hreal : RealizesChain chain conns)
    {k : Nat} (hk1 : k + 1 < chain.length) :
    (adjIds conns (chain.getD k "")).count (chain.getD (k + 1) "") = 1 := by
  have hne : chain.getD k "" ≠ chain.getD (k + 1) "" :=
    chain_getD_ne hnd (by omega) hk1 (by omega)
  rw [count_adjIds hne]
  exact hreal.2 k (by omega)

theorem count_adj_prev {chain : List String} {conns : List Conn}
    (hnd : chain.Nodup) (hreal : RealizesChain chain conns)
    {k : Nat} (hk : k < chain.length) (h1k : 1 ≤ k) :
    (adjIds conns (chain.getD k "")).count (chain.getD (k - 1) "") = 1 := by
  have hne : chain.getD k "" ≠ chain.getD (k - 1) "" :=
    chain_getD_ne hnd hk (by omega) (by omega)
  rw [count_adjIds hne]
  have hcp := hreal.2 (k - 1) (by omega)
  have hidx : k - 1 + 1 = k := by omega
  rw [hidx] at hcp
  have hcg : List.countP (fun c => joinsPair c (chain.getD k "") (chain.getD (k - 1) "")) conns =
      List.countP (fun c => joinsPair c (chain.getD (k - 1) "") (chain.getD k "")) conns :=
    List.countP_congr (fun c _ => by rw [joinsPair_comm])
  rw [hcg]
  exact hcp

theorem adj_chain_zero {chain : List String} {conns : List Conn}
    (hnd : chain.Nodup) (hreal : RealizesChain chain conns)
    (h2 : 2 ≤ chain.length) :
    adjIds conns (chain.getD 0 "") = [chain.getD 1 ""] := by
  apply eq_singleton_of_forall_eq_of_count
  · intro y hy
    rcases mem_adj_chain hnd hreal (by omega) hy with ⟨h1, _⟩ | ⟨_, h⟩
    · omega
    · exact h
  · have := count_adj_next hnd hreal (k := 0) (by omega)
    simpa using this

theorem adj_chain_last {chain : List String} {conns : List Conn}
    (hnd : chain.Nodup) (hreal : RealizesChain chain conns)
    (h2 : 2 ≤ chain.length) :
    adjIds conns (chain.getD (chain.length - 1) "") = [chain.getD (chain.length - 2) ""] := by
  apply eq_singleton_of_forall_eq_of_count
  · intro y hy
    rcases mem_adj_chain hnd hreal (k := chain.length - 1) (by omega) hy with
      ⟨_, h⟩ | ⟨h1, _⟩
    · rw [h]
      have hidx2 : chain.length - 1 - 1 = chain.length - 2 := by omega
      rw [hidx2]
    · omega
  · have := count_adj_prev hnd hreal (k := chain.length - 1) (by omega) (by omega)
    have hidx : chain.length - 1 - 1 = chain.length - 2 := by omega
    rwa [hidx] at this

theorem adj_chain_interior {chain : List String} {conns : List Conn}
    (hnd : chain.Nodup) (hreal : RealizesChain chain conns)
    {k : Nat} (h1k : 1 ≤ k) (hk1 : k + 1 < chain.length) :
    (adjIds conns (chain.getD k "")).length = 2 := by
  have hne : chain.getD (k - 1) "" ≠ chain.getD (k + 1) "" :=
    chain_getD_ne hnd (by omega) hk1 (by omega)
  have hall : ∀ y ∈ adjIds conns (chain.getD k ""),
      y = chain.getD (k - 1) "" ∨ y = chain.getD (k + 1) "" := by
    intro y hy
    rcases mem_adj_chain hnd hreal (by omega) hy with ⟨_, h⟩ | ⟨_, h⟩
    · exact Or.inl h
    · exact Or.inr h
  rw [length_eq_count_add_count _ _ _ hne hall]
  rw [count_adj_prev hnd hreal (by omega) h1k, count_adj_next hnd hreal hk1]

theorem getD_mem_take {chain : List String} {j m : Nat} (hj : j < m)
    (hjl : j < chain.length) : chain.getD j "" ∈ chain.take m := by
  rw [List.getD_eq_getElem chain "" hjl]
  have hlt : j < (chain.take m).length := by
    rw [List.length_take]
    omega
  have heq : (chain.take m)[j] = chain[j] := List.getElem_take chain
  rw [← heq]
  exact List.getElem_mem hlt

theorem getD_not_mem_take {chain : List String} (hnd : chain.Nodup)
    {k : Nat} (hk1 : k + 1 < chain.length) :
    chain.getD (k + 1) "" ∉ chain.take (k + 1) := by
  intro hmem
  obtain ⟨j, hjlen, hj⟩ := List.mem_iff_getElem.mp hmem
  have hjk : j < k + 1 := by
    rw [List.length_take] at hjlen
    omega
  have hjc : j < chain.length := by omega
  have heq : chain[j] = chain.getD (k + 1) "" := by
    rw [← hj]
    exact (List.getElem_take chain).symm
  have := chain_getD_inj hnd hjc hk1
    (by rw [List.getD_eq_getElem chain "" hjc]; exact heq)
  omega

theorem reverse_getD {chain : List String} {i : Nat} (hi : i < chain.length) :
    chain.reverse.getD i "" = chain.getD (chain.length - 1 - i) "" := by
  have hi' : i < chain.reverse.length := by
    rw [List.length_reverse]
    exact hi
  rw [List.getD_eq_getElem _ "" hi', List.getD_eq_getElem _ "" (by omega)]
  exact List.getElem_reverse hi'

theorem realizesChain_reverse {chain : List String} {conns : List Conn}
    (h : RealizesChain chain conns) : RealizesChain chain.reverse conns := by
  constructor
  · intro c hc
    obtain ⟨i, hi, hj⟩ := h.1 c hc
    refine ⟨chain.length - 2 - i, ?_, ?_⟩
    · rw [List.length_reverse]
      omega
    · have e1 : chain.reverse.getD (chain.length - 2 - i) "" = chain.getD (i + 1) "" := by
        rw [reverse_getD (by omega)]
        congr 1
        omega
      have e2 : chain.reverse.getD (chain.length - 2 - i + 1) "" = chain.getD i "" := by
        rw [reverse_getD (by omega)]
        congr 1
        omega
      rw [e1, e2, joinsPair_comm]
      exact hj
  · intro i hi
    rw [List.length_reverse] at hi
    have e1 : chain.reverse.getD i "" = chain.getD (chain.length - 1 - i) "" :=
      reverse_getD (by omega)
    have e2 : chain.reverse.getD (i + 1) "" = chain.getD (chain.length - 2 - i) "" := by
      rw [reverse_getD (by omega)]
      congr 1
      omega
    rw [e1, e2]
    have hcp := h.2 (chain.length - 2 - i) (by omega)
    have e3 : chain.length - 2 - i + 1 = chain.length - 1 - i := by omega
    rw [e3] at hcp
    have hcg : List.countP (fun c =>
          joinsPair c (chain.getD (chain.length - 1 - i) "")
            (chain.getD (chain.length - 2 - i) "")) conns =
        List.countP (fun c =>
          joinsPair c (chain.getD (chain.length - 2 - i) "")
            (chain.getD (chain.length - 1 - i) "")) conns :=
      List.countP_congr (fun c _ => by rw [joinsPair_comm])
    rw [hcg]
    exact hcp

theorem chain_getD_mem_ids {boxes : List Box} {chain : List String}
    (hperm : List.Perm (boxes.map Box.id) chain) {k : Nat} (hk : k < chain.length) :
    chain.getD k "" ∈ idsOf boxes := by
  unfold idsOf
  rw [List.mem_toFinset]
  apply hperm.mem_iff.mpr
  rw [List.getD_eq_getElem chain "" hk]
  exact List.getElem_mem hk

theorem exists_box_of_chain {boxes : List Box} {chain : List String}
    (hperm : List.Perm (boxes.map Box.id) chain) {k : Nat} (hk : k < chain.length) :
    ∃ b ∈ boxes, b.id = chain.getD k "" := by
  have hmem : chain.getD k "" ∈ boxes.map Box.id := by
    apply hperm.mem_iff.mpr
    rw [List.getD_eq_getElem chain "" hk]
    exact List.getElem_mem hk
  rw [List.mem_map] at hmem
  obtain ⟨b, hb, he⟩ := hmem
  exact ⟨b, hb, he⟩

theorem take_succ_getD {chain : List String} {k : Nat} (hk : k < chain.length) :
    chain.take (k + 1) = chain.take k ++ [chain.getD k ""] := by
  rw [List.take_succ]
  congr 1
  rw [List.getElem?_eq_getElem hk, List.getD_eq_getElem chain "" hk]
  rfl

theorem adjEntriesOf_length_eq {boxes : List Box} {conns : List Conn} {x : String}
    (hx : x ∈ idsOf boxes) :
    (adjEntriesOf boxes conns x).length = (adjIds conns x).length := by
  conv_rhs => rw [← adjEntries_map_id]
  unfold adjEntriesOf
  rw [if_pos hx, List.length_map]

theorem routeLoop_chain (boxes : List Box) (conns : List Conn) (chain : List String)
    (hnd : chain.Nodup) (hreal : RealizesChain chain conns)
    (hperm : List.Perm (boxes.map Box.id) chain) :
    ∀ (fuel k : Nat) (route : List Box) (visited : Finset String),
      k < chain.length → fuel = chain.length - (k + 1) →
      route.map Box.id = chain.take (k + 1) →
      visited = (chain.take (k + 1)).toFinset →
      (routeLoop boxes conns fuel route visited (chain.getD k "")).map Box.id = chain := by
  intro fuel
  induction fuel with
  | zero =>
      intro k route visited hk hfuel hroute hvis
      rw [routeLoop_zero]
      have hk1 : k + 1 = chain.length := by omega
      rw [hroute, hk1, List.take_length]
  | succ fuel ih =>
      intro k route visited hk hfuel hroute hvis
      have hk1 : k + 1 < chain.length := by omega
      rw [routeLoop_succ]
      have hguard : chain.getD k "" ∈ idsOf boxes := chain_getD_mem_ids hperm hk
      have hnext_not : chain.getD (k + 1) "" ∉ visited := by
        rw [hvis, List.mem_toFinset]
        exact getD_not_mem_take hnd hk1
      have hfil_map : ((adjEntriesOf boxes conns (chain.getD k "")).filter
          (fun e => e.id ∉ visited)).map AdjEntry.id = [chain.getD (k + 1) ""] := by
        rw [filter_id_map, adjEntriesOf_map_id]
        unfold adjOf
        rw [if_pos hguard]
        apply eq_singleton_of_forall_eq_of_count
        · intro y hyf
          have hmemadj := (List.mem_filter.mp hyf).1
          have hyv : y ∉ visited := by simpa using (List.mem_filter.mp hyf).2
          rcases mem_adj_chain hnd hreal hk hmemadj with ⟨h1k, rfl⟩ | ⟨_, rfl⟩
          · exfalso
            apply hyv
            rw [hvis, List.mem_toFinset]
            exact getD_mem_take (by omega) (by omega)
          · rfl
        · rw [List.count_filter (by simpa using hnext_not)]
          exact count_adj_next hnd hreal hk1
      obtain ⟨e, hfil_eq, he_id⟩ := map_eq_singleton hfil_map
      rw [hfil_eq]
      dsimp only
      have hex : ∃ b ∈ boxes, b.id = chain.getD (k + 1) "" :=
        exists_box_of_chain hperm hk1
      have hfind_ne : boxes.find? (fun b => b.id = e.id) ≠ none := by
        intro hnone
        rw [List.find?_eq_none] at hnone
        obtain ⟨b, hb, hbid⟩ := hex
        exact hnone b hb (by simp [hbid, he_id])
      obtain ⟨nb, hnb⟩ := Option.ne_none_iff_exists'.mp hfind_ne
      rw [hnb]
      have hnbid : nb.id = chain.getD (k + 1) "" := by
        have hfs := List.find?_some hnb
        simp at hfs
        rw [hfs, he_id]
      have htake : chain.take (k + 2) = chain.take (k + 1) ++ [chain.getD (k + 1) ""] :=
        take_succ_getD hk1
      have hroute2 : (route ++ [nb]).map Box.id = chain.take (k + 1 + 1) := by
        rw [List.map_append, hroute, htake]
        simp [hnbid]
      have hvis2 : insert nb.id visited = (chain.take (k + 1 + 1)).toFinset := by
        rw [htake, List.toFinset_append, hvis]
        simp [hnbid, Finset.insert_eq, Finset.union_comm]
      have happly := ih (k + 1) (route ++ [nb]) (insert nb.id visited) hk1
        (by omega) hroute2 hvis2
      rw [← hnbid] at happly
      exact happly

theorem startBoxOf_chain (b0 : Box) (rest : List Box) (conns : List Conn)
    (chain : List String) (h2 : 2 ≤ chain.length) (hnd : chain.Nodup)
    (hperm : List.Perm ((b0 :: rest).map Box.id) chain)
    (hreal : RealizesChain chain conns) :
    (startBoxOf (b0 :: rest) conns b0).id = chain.getD 0 "" ∨
    (startBoxOf (b0 :: rest) conns b0).id = chain.getD (chain.length - 1) "" := by
  obtain ⟨bh, hbh, hbh_id⟩ : ∃ b ∈ (b0 :: rest), b.id = chain.getD 0 "" :=
    exists_box_of_chain hperm (by omega)
  have hbh_mem_ids : bh.id ∈ idsOf (b0 :: rest) := by
    rw [hbh_id]
    exact chain_getD_mem_ids hperm (by omega)
  have hbh_deg : (((adjEntriesOf (b0 :: rest) conns bh.id).length == 1) = true) := by
    rw [adjEntriesOf_length_eq hbh_mem_ids, hbh_id, adj_chain_zero hnd hreal h2]
    rfl
  have hfil_ne : (b0 :: rest).filter
      (fun b => (adjEntriesOf (b0 :: rest) conns b.id).length == 1) ≠ [] := by
    intro hnil
    have hin : bh ∈ (b0 :: rest).filter
        (fun b => (adjEntriesOf (b0 :: rest) conns b.id).length == 1) :=
      List.mem_filter.mpr ⟨hbh, hbh_deg⟩
    rw [hnil] at hin
    cases hin
  cases hf : (b0 :: rest).filter
      (fun b => (adjEntriesOf (b0 :: rest) conns b.id).length == 1) with
  | nil => exact absurd hf hfil_ne
  | cons s0 tl =>
      have hs_eq : startBoxOf (b0 :: rest) conns b0 = s0 := by
        unfold startBoxOf
        rw [hf]
      have hs0_fil : s0 ∈ (b0 :: rest).filter
          (fun b => (adjEntriesOf (b0 :: rest) conns b.id).length == 1) := by
        rw [hf]
        exact List.mem_cons_self _ _
      have hs0_mem : s0 ∈ (b0 :: rest) := List.mem_of_mem_filter hs0_fil
      have hs0_deg : (((adjEntriesOf (b0 :: rest) conns s0.id).length == 1) = true) :=
        (List.mem_filter.mp hs0_fil).2
      obtain ⟨k, hk, hk_id⟩ : ∃ k, k < chain.length ∧ s0.id = chain.getD k "" := by
        have hmem : s0.id ∈ chain :=
          hperm.mem_iff.mp (List.mem_map_of_mem Box.id hs0_mem)
        obtain ⟨i, hi, hieq⟩ := List.mem_iff_getElem.mp hmem
        refine ⟨i, hi, ?_⟩
        rw [List.getD_eq_getElem chain "" hi, hieq]
      have hs0_ids : s0.id ∈ idsOf (b0 :: rest) := by
        rw [hk_id]
        exact chain_getD_mem_ids hperm hk
      rw [adjEntriesOf_length_eq hs0_ids, beq_iff_eq] at hs0_deg
      by_cases hk0 : k = 0
      · left
        rw [hs_eq, hk_id, hk0]
      · by_cases hklast : k = chain.length - 1
        · right
          rw [hs_eq, hk_id, hklast]
        · exfalso
          have hint : (adjIds conns (chain.getD k "")).length = 2 :=
            adj_chain_interior hnd hreal (by omega) (by omega)
          rw [hk_id] at hs0_deg
          omega

theorem buildOrderedRoute_chain (boxes : List Box) (conns : List Conn)
    (chain : List String) (h2 : 2 ≤ chain.length) (hnd : chain.Nodup)
    (hperm : List.Perm (boxes.map Box.id) chain)
    (hreal : RealizesChain chain conns) :
    (buildOrderedRoute boxes conns).map Box.id = chain ∨
    (buildOrderedRoute boxes conns).map Box.id = chain.reverse := by
  have hblen : boxes.length = chain.length := by
    have hl := hperm.length_eq
    rwa [List.length_map] at hl
  obtain ⟨b0, rest, rfl⟩ : ∃ b0 rest, boxes = b0 :: rest := by
    cases boxes with
    | nil =>
        exfalso
        simp at hblen
        omega
    | cons b0 rest => exact ⟨b0, rest, rfl⟩
  have hlen : ¬(((b0 :: rest).length == 1) = true) := by
    simp only [beq_iff_eq]
    omega
  rw [buildOrderedRoute_eq b0 rest conns hlen]
  have htake1 : chain.take 1 = [chain.getD 0 ""] := by
    have := @take_succ_getD chain 0 (by omega)
    simpa using this
  rcases startBoxOf_chain b0 rest conns chain h2 hnd hperm hreal with hsid | hsid
  · left
    have happ := routeLoop_chain (b0 :: rest) conns chain hnd hreal hperm
      ((b0 :: rest).length - 1) 0
      [startBoxOf (b0 :: rest) conns b0] {(startBoxOf (b0 :: rest) conns b0).id}
      (by omega) (by omega) ?_ ?_
    · rw [← hsid] at happ
      exact happ
    · rw [htake1]
      simp [hsid]
    · rw [htake1, hsid]
      simp
  · right
    have hnd' : chain.reverse.Nodup := List.nodup_reverse.mpr hnd
    have hperm' : List.Perm ((b0 :: rest).map Box.id) chain.reverse :=
      hperm.trans (List.reverse_perm chain).symm
    have hreal' := realizesChain_reverse hreal
    have h2' : 2 ≤ chain.reverse.length := by
      rw [List.length_reverse]
      exact h2
    have hsid' : (startBoxOf (b0 :: rest) conns b0).id = chain.reverse.getD 0 "" := by
      rw [reverse_getD (show 0 < chain.length by omega)]
      exact hsid
    have htake1' : chain.reverse.take 1 = [chain.reverse.getD 0 ""] := by
      have ht := @take_succ_getD chain.reverse 0
        (by rw [List.length_reverse]; omega)
      simpa using ht
    have happ := routeLoop_chain (b0 :: rest) conns chain.reverse hnd' hreal' hperm'
      ((b0 :: rest).length - 1) 0
      [startBoxOf (b0 :: rest) conns b0] {(startBoxOf (b0 :: rest) conns b0).id}
      (by rw [List.length_reverse]; omega) (by rw [List.length_reverse]; omega) ?_ ?_
    · rw [← hsid'] at happ
      exact happ
    · rw [htake1']
      simp [hsid']
    · rw [htake1', hsid']
      simp

theorem fallbackRoute_path (boxes : List Box) (s e : String) :
    (fallbackRoute boxes s e).path =
      s :: ((boxes.map Box.id).filter (fun x => x ≠ s ∧ x ≠ e) ++ [e]) := by
  unfold fallbackRoute
  dsimp only
  rw [show (boxes.filter (fun b => b.id ≠ s ∧ b.id ≠ e)).map Box.id =
      (boxes.map Box.id).filter (fun x => x ≠ s ∧ x ≠ e) from
    filter_map_comm Box.id (fun x => decide (x ≠ s ∧ x ≠ e)) boxes]

theorem count_filter_ne {l : List String} {s e x : String} :
    (l.filter (fun z => z ≠ s ∧ z ≠ e)).count x =
      if x ≠ s ∧ x ≠ e then l.count x else 0 := by
  by_cases h : x ≠ s ∧ x ≠ e
  · rw [if_pos h]
    exact List.count_filter (by simpa using h)
  · rw [if_neg h]
    rw [List.count_eq_zero]
    intro hmem
    exact h (by simpa using (List.mem_filter.mp hmem).2)

theorem fallbackRoute_perm (boxes : List Box) (s e : String)
    (hnd : (boxes.map Box.id).Nodup) (hs : s ∈ boxes.map Box.id)
    (he : e ∈ boxes.map Box.id) (hne : s ≠ e) :
    List.Perm (fallbackRoute boxes s e).path (boxes.map Box.id) := by
  rw [fallbackRoute_path]
  rw [List.perm_iff_count]
  intro x
  rw [List.count_cons, List.count_append, count_filter_ne, List.count_singleton]
  by_cases hxs : x = s <;> by_cases hxe : x = e
  · exact absurd (hxs.symm.trans hxe) hne
  · subst hxs
    rw [List.count_eq_one_of_mem hnd hs]
    have h1 : ¬(x ≠ x ∧ x ≠ e) := fun h => h.1 rfl
    rw [if_neg h1]
    have h2 : ¬((e == x) = true) := by
      simp only [beq_iff_eq]
      exact fun h => hne (h.symm)
    rw [if_neg h2]
    simp
  · subst hxe
    rw [List.count_eq_one_of_mem hnd he]
    have h1 : ¬(x ≠ s ∧ x ≠ x) := fun h => h.2 rfl
    rw [if_neg h1]
    have h2 : ¬((s == x) = true) := by
      simp only [beq_iff_eq]
      exact fun h => hxs (h.symm)
    rw [if_neg h2]
    simp
  · rw [if_pos ⟨hxs, hxe⟩]
    have h2 : ¬((s == x) = true) := by
      simp only [beq_iff_eq]
      exact fun h => hxs (h.symm)
    have h3 : ¬((e == x) = true) := by
      simp only [beq_iff_eq]
      exact fun h => hxe (h.symm)
    rw [if_neg h2, if_neg h3]
    simp

theorem fallbackRoute_head (boxes : List Box) (s e : String) :
    (fallbackRoute boxes s e).path.head? = some s := by
  rw [fallbackRoute_path]
  rfl

theorem fallbackRoute_last (boxes : List Box) (s e : String) :
    (fallbackRoute boxes s e).path.getLast? = some e := by
  rw [fallbackRoute_path]
  rw [show s :: ((boxes.map Box.id).filter (fun x => x ≠ s ∧ x ≠ e) ++ [e]) =
      (s :: (boxes.map Box.id).filter (fun x => x ≠ s ∧ x ≠ e)) ++ [e] from rfl]
  exact List.getLast?_concat _

theorem validateResult_spec (boxes : List Box) (s e : String) (r : RouteResult)
    (hnd : (boxes.map Box.id).Nodup) (hv : validateResult boxes s e r = true) :
    List.Perm r.path (boxes.map Box.id) ∧
    r.path.head? = some s ∧ r.path.getLast? = some e := by
  unfold validateResult setSize at hv
  simp only [Bool.and_eq_true, beq_iff_eq, List.all_eq_true] at hv
  obtain ⟨⟨⟨⟨hlen, hhead⟩, hlast⟩, hsize⟩, hall⟩ := hv
  refine ⟨?_, hhead, hlast⟩
  have hids_dedup : (boxes.map Box.id).dedup = boxes.map Box.id := List.Nodup.dedup hnd
  have hids_len : (boxes.map Box.id).length = boxes.length := List.length_map _ _
  have hpl : r.path.dedup.length = r.path.length := by
    rw [hids_dedup] at hsize
    omega
  have hnd_path : r.path.Nodup := by
    have hsl := List.dedup_sublist r.path
    have heq := hsl.eq_of_length_le (le_of_eq hpl.symm)
    exact List.dedup_eq_self.mp heq
  have hsubset : (boxes.map Box.id) ⊆ r.path := by
    intro x hx
    have hc := hall x hx
    simpa using hc
  have hsub : List.Subperm (boxes.map Box.id) r.path := List.Nodup.subperm hnd hsubset
  have hp : List.Perm (boxes.map Box.id) r.path :=
    hsub.perm_of_length_le (by omega)
  exact hp.symm

theorem find?_id_not_none {boxes : List Box} {s : String}
    (hs : s ∈ boxes.map Box.id) :
    ¬ ((boxes.find? (fun b => b.id = s)).isNone = true) := by
  rw [Option.isNone_iff_eq_none]
  intro hnone
  rw [List.find?_eq_none] at hnone
  rw [List.mem_map] at hs
  obtain ⟨b, hb, rfl⟩ := hs
  exact hnone b hb (by simp)

theorem getOptimizedRoute_none (boxes : List Box) (s e : String) :
    getOptimizedRoute boxes s e none = fallbackRoute boxes s e := by
  unfold getOptimizedRoute
  split <;> rfl

theorem getOptimizedRoute_invalid (boxes : List Box) (s e : String) (r : RouteResult)
    (hv : validateResult boxes s e r = false) :
    getOptimizedRoute boxes s e (some r) = fallbackRoute boxes s e := by
  unfold getOptimizedRoute
  split
  · rfl
  · dsimp only
    rw [if_neg]
    simp [hv]

theorem getOptimizedRoute_valid (boxes : List Box) (s e : String) (r : RouteResult)
    (hs : s ∈ boxes.map Box.id) (he : e ∈ boxes.map Box.id)
    (hv : validateResult boxes s e r = true) :
    getOptimizedRoute boxes s e (some r) = r := by
  unfold getOptimizedRoute
  rw [if_neg]
  · dsimp only
    rw [if_pos hv]
  · intro hcon
    rcases hcon with h | h
    · exact find?_id_not_none hs (by rw [h])
    · exact find?_id_not_none he (by rw [h])

theorem chainConns_length : ∀ l : List String, (chainConns l).length = l.length - 1 := by
  intro l
  induction l with
  | nil => rfl
  | cons a l ih =>
      cases l with
      | nil => rfl
      | cons b rest =>
          rw [chainConns]
          have hlen := ih
          simp only [List.length_cons] at hlen ⊢
          omega

theorem chainConns_get? : ∀ (l : List String) (i : Nat), i + 1 < l.length →
    (chainConns l).get? i = some
      { fromId := l.getD i "", fromSide := Side.bottom, toId := l.getD (i + 1) "",
        toSide := Side.top, duration := some "Calculating..." } := by
  intro l
  induction l with
  | nil =>
      intro i hi
      simp at hi
  | cons a l ih =>
      intro i hi
      cases l with
      | nil => simp at hi
      | cons b rest =>
          cases i with
          | zero => rfl
          | succ i =>
              rw [chainConns]
              have hi' : i + 1 < (b :: rest).length := by
                simp only [List.length_cons] at hi ⊢
                omega
              have := ih i hi'
              simpa using this

theorem findTimeMatch_none : ∀ cs : List Char, (∀ c ∈ cs, ¬ c.isDigit = true) →
    findTimeMatch cs = none := by
  intro cs h
  induction cs with
  | nil => rfl
  | cons c cs ih =>
      unfold findTimeMatch
      rw [if_neg (h c (List.mem_cons_self _ _))]
      exact ih (fun c' hc' => h c' (List.mem_cons_of_mem _ hc'))

theorem timeMatch_none {t : String} (h : ∀ c ∈ t.data, ¬ c.isDigit = true) :
    timeMatch t = none := by
  unfold timeMatch
  rw [findTimeMatch_none t.data h]
  rfl

theorem fetchTravelTime_fetchError (a b : String) :
    fetchTravelTime a b PlanOutcome.fetchError = "Unknown" := rfl

theorem fetchTravelTime_notOk (a b : String) (t? : Option String) :
    fetchTravelTime a b (PlanOutcome.response false t?) = "Unknown" := by
  unfold fetchTravelTime
  cases t? with
  | none => rfl
  | some t => simp

theorem fetchTravelTime_noText (a b : String) (ok : Bool) :
    fetchTravelTime a b (PlanOutcome.response ok none) = "Unknown" := rfl

theorem fetchTravelTime_noDigit (a b : String) (ok : Bool) (t : String)
    (h : ∀ c ∈ t.data, ¬ c.isDigit = true) :
    fetchTravelTime a b (PlanOutcome.response ok (some t)) = "Unknown" := by
  unfold fetchTravelTime
  dsimp only
  by_cases hc : ok && t ≠ ""
  · rw [if_pos hc, timeMatch_none h]
  · rw [if_neg hc]

theorem update_new_conn (conns : List Conn) (newC : Conn)
    (hno : ∀ c ∈ conns, ¬ joinsPair c newC.fromId newC.toId = true) (d' : Option String) :
    (conns ++ [newC]).map (fun c => if c = newC then { c with duration := d' } else c) =
      conns ++ [{ newC with duration := d' }] := by
  rw [List.map_append]
  congr 1
  · have hcc : ∀ c ∈ conns,
        (if c = newC then { c with duration := d' } else c) = id c := by
      intro c hc
      rw [if_neg, id]
      intro heq
      apply hno c hc
      rw [heq]
      unfold joinsPair
      simp
    rw [List.map_congr_left hcc, List.map_id]
  · simp

theorem finishConnection_none_cf (boxes : List Box) (conns : List Conn)
    (boxId : String) (side : Side) (outcome : PlanOutcome) :
    finishConnection boxes conns none boxId side outcome =
      { connections := conns, fetchInvoked := false } := rfl

theorem finishConnection_self (boxes : List Box) (conns : List Conn)
    (cfId : String) (cfSide : Side) (boxId : String) (side : Side)
    (outcome : PlanOutcome) (h : cfId = boxId) :
    finishConnection boxes conns (some (cfId, cfSide)) boxId side outcome =
      { connections := conns, fetchInvoked := false } := by
  unfold finishConnection
  dsimp only
  rw [if_pos h]

theorem finishConnection_dup (boxes : List Box) (conns : List Conn)
    (cfId : String) (cfSide : Side) (boxId : String) (side : Side)
    (outcome : PlanOutcome) (hne : ¬ cfId = boxId) (c0 : Conn)
    (hfind : conns.find? (fun c => joinsPair c cfId boxId) = some c0) :
    finishConnection boxes conns (some (cfId, cfSide)) boxId side outcome =
      { connections := conns, fetchInvoked := false } := by
  unfold finishConnection
  dsimp only
  rw [if_neg hne]
  rw [hfind]

theorem finishConnection_cases (boxes : List Box) (conns : List Conn)
    (cfId : String) (cfSide : Side) (boxId : String) (side : Side)
    (outcome : PlanOutcome) (hne : ¬ cfId = boxId)
    (hfind : conns.find? (fun c => joinsPair c cfId boxId) = none) :
    (∃ fb tb, boxes.find? (fun b => b.id = cfId) = some fb ∧
       boxes.find? (fun b => b.id = boxId) = some tb ∧
       (fb.address ≠ "" ∧ fb.address.trim ≠ "" ∧ tb.address ≠ "" ∧ tb.address.trim ≠ "") ∧
       finishConnection boxes conns (some (cfId, cfSide)) boxId side outcome =
         FinishResult.mk (conns ++ [Conn.mk cfId cfSide boxId side
           (some (fetchTravelTime fb.address tb.address outcome))]) true) ∨
    (finishConnection boxes conns (some (cfId, cfSide)) boxId side outcome =
       FinishResult.mk (conns ++ [Conn.mk cfId cfSide boxId side none]) false) := by
  have hno : ∀ c ∈ conns, ¬ joinsPair c cfId boxId = true := by
    rw [List.find?_eq_none] at hfind
    exact hfind
  unfold finishConnection
  dsimp only
  rw [if_neg hne]
  rw [hfind]
  dsimp only
  cases hfb : boxes.find? (fun b => b.id = cfId) with
  | none =>
      right
      rw [update_new_conn conns _ hno none]
  | some fb =>
      cases htb : boxes.find? (fun b => b.id = boxId) with
      | none =>
          right
          rw [update_new_conn conns _ hno none]
      | some tb =>
          dsimp only
          by_cases haddr : fb.address ≠ "" ∧ fb.address.trim ≠ "" ∧
              tb.address ≠ "" ∧ tb.address.trim ≠ ""
          · left
            refine ⟨fb, tb, rfl, rfl, haddr, ?_⟩
            rw [if_pos haddr]
            rw [update_new_conn conns _ hno
              (some (fetchTravelTime fb.address tb.address outcome))]
          · right
            rw [if_neg haddr]
            rw [update_new_conn conns _ hno none]

theorem connInvariant_append (conns : List Conn) (c : Conn) (hinv : ConnInvariant conns)
    (hself : c.fromId ≠ c.toId)
    (hno : ∀ c' ∈ conns, ¬ joinsPair c' c.fromId c.toId = true) :
    ConnInvariant (conns ++ [c]) := by
  constructor
  · intro c' hc'
    rcases List.mem_append.mp hc' with h | h
    · exact hinv.1 c' h
    · rw [List.mem_singleton.mp h]
      exact hself
  · rw [List.pairwise_append]
    refine ⟨hinv.2, List.pairwise_singleton _ _, ?_⟩
    intro c1 h1 c2 h2
    rw [List.mem_singleton.mp h2]
    cases hb : joinsPair c1 c.fromId c.toId with
    | false => rfl
    | true => exact absurd hb (hno c1 h1)

theorem exportToGoogleMaps_rejected (enc : String → String) (boxes : List Box)
    (conns : List Conn) (h : areAllBoxesConnected boxes conns = false) :
    exportToGoogleMaps enc boxes conns = ExportResult.rejectedNotConnected := by
  unfold exportToGoogleMaps
  rw [h]
  rfl

theorem areAllBoxesConnected_false (boxes : List Box) (conns : List Conn)
    (hne : boxes ≠ []) (hnd : (boxes.map Box.id).Nodup)
    (hEnds : ∀ c ∈ conns, c.fromId ∈ idsOf boxes ∧ c.toId ∈ idsOf boxes)
    (hdisc : ¬ ∀ b1 ∈ boxes, ∀ b2 ∈ boxes, Reaches boxes conns b1.id b2.id) :
    areAllBoxesConnected boxes conns = false := by
  cases h : areAllBoxesConnected boxes conns with
  | false => rfl
  | true =>
      exact absurd ((areAllBoxesConnected_iff boxes conns hne hnd hEnds).mp h) hdisc

theorem reaches_subset_closed (boxes : List Box) (conns : List Conn)
    (S : Finset String) (hS : ∀ a ∈ S, ∀ b ∈ adjOf boxes conns a, b ∈ S)
    {x y : String} (hx : x ∈ S) (h : Reaches boxes conns x y) : y ∈ S := by
  induction h with
  | refl => exact hx
  | tail _ hadj ih => exact hS _ ih _ hadj

theorem find?_isNone_iff {boxes : List Box} {s : String} :
    (boxes.find? (fun b => b.id = s)).isNone = true ↔ s ∉ boxes.map Box.id := by
  rw [Option.isNone_iff_eq_none, List.find?_eq_none]
  constructor
  · intro h hm
    rw [List.mem_map] at hm
    obtain ⟨b, hb, rfl⟩ := hm
    exact h b hb (by simp)
  · intro h b hb hp
    apply h
    simp only [decide_eq_true_eq] at hp
    rw [← hp]
    exact List.mem_map_of_mem Box.id hb

/-- C1: for every optimize request whose boxes have pairwise-distinct ids, at
least 2 boxes, and whose start and end ids are present among the boxes and
distinct, `getOptimizedRoute` returns a path that is a permutation of the box
ids starting at the start id and ending at the end id — for every AI outcome,
i.e. on the AI-validated branch as well as on the fallback branch. -/
theorem claim_C1_optimize_permutation (boxes : List Box) (s e : String)
    (hnd : (boxes.map Box.id).Nodup) (h2 : 2 ≤ boxes.length)
    (hs : s ∈ boxes.map Box.id) (he : e ∈ boxes.map Box.id) (hne : s ≠ e) :
    ∀ ai, List.Perm (getOptimizedRoute boxes s e ai).path (boxes.map Box.id) ∧
      (getOptimizedRoute boxes s e ai).path.head? = some s ∧
      (getOptimizedRoute boxes s e ai).path.getLast? = some e := by
  intro ai
  cases ai with
  | none =>
      rw [getOptimizedRoute_none]
      exact ⟨fallbackRoute_perm boxes s e hnd hs he hne,
        fallbackRoute_head boxes s e, fallbackRoute_last boxes s e⟩
  | some r =>
      cases hv : validateResult boxes s e r with
      | false =>
          rw [getOptimizedRoute_invalid boxes s e r hv]
          exact ⟨fallbackRoute_perm boxes s e hnd hs he hne,
            fallbackRoute_head boxes s e, fallbackRoute_last boxes s e⟩
      | true =>
          rw [getOptimizedRoute_valid boxes s e r hs he hv]
          exact validateResult_spec boxes s e r hnd hv

/-- Witness for C1 at a concrete four-box request with a failing AI outcome. -/
theorem claim_C1_optimize_permutation_witness :
    List.Perm (getOptimizedRoute fourBoxes "a" "d" none).path (fourBoxes.map Box.id) ∧
    (getOptimizedRoute fourBoxes "a" "d" none).path.head? = some "a" ∧
    (getOptimizedRoute fourBoxes "a" "d" none).path.getLast? = some "d" :=
  claim_C1_optimize_permutation fourBoxes "a" "d" (by decide) (by decide)
    (by decide) (by decide) (by decide) none

/-- C2: whenever the AI attempt fails — the exchange produced no usable
payload (`ai = none`) or the payload failed validation — the optimize
operation still succeeds and returns exactly the fallback: the start id, then
the other box ids in input order, then the end id, with a chain of
connections between consecutive ids each carrying the pending sentinel
`"Calculating..."`; the `POST` handler reports success. -/
theorem claim_C2_failure_fallback (boxes : List Box) (s e : String)
    (ai : Option RouteResult) (hs : s ∈ boxes.map Box.id) (he : e ∈ boxes.map Box.id)
    (hs0 : s ≠ "") (he0 : e ≠ "")
    (hfail : ai = none ∨ ∃ r, ai = some r ∧ validateResult boxes s e r = false) :
    getOptimizedRoute boxes s e ai = fallbackRoute boxes s e ∧
    (fallbackRoute boxes s e).path =
      s :: ((boxes.map Box.id).filter (fun x => x ≠ s ∧ x ≠ e) ++ [e]) ∧
    (fallbackRoute boxes s e).connections.length =
      (fallbackRoute boxes s e).path.length - 1 ∧
    (∀ i, i + 1 < (fallbackRoute boxes s e).path.length →
      (fallbackRoute boxes s e).connections.get? i =
        some (Conn.mk ((fallbackRoute boxes s e).path.getD i "") Side.bottom
          ((fallbackRoute boxes s e).path.getD (i + 1) "") Side.top
          (some "Calculating..."))) ∧
    POST (some boxes) s e ai =
      PostResponse.success (fallbackRoute boxes s e).path
        (fallbackRoute boxes s e).connections
        ("Optimized route found with " ++
          toString (fallbackRoute boxes s e).path.length ++ " stops") := by
  have hfb : getOptimizedRoute boxes s e ai = fallbackRoute boxes s e := by
    rcases hfail with rfl | ⟨r, rfl, hv⟩
    · exact getOptimizedRoute_none boxes s e
    · exact getOptimizedRoute_invalid boxes s e r hv
  refine ⟨hfb, fallbackRoute_path boxes s e, chainConns_length _,
    fun i hi => chainConns_get? _ i hi, ?_⟩
  have hcond1 : ¬(s = "" ∨ e = "") := by
    rintro (h | h)
    · exact hs0 h
    · exact he0 h
  have hcond2 : ¬((boxes.find? (fun b => b.id = s)).isNone = true ∨
      (boxes.find? (fun b => b.id = e)).isNone = true) := by
    rintro (h | h)
    · exact find?_id_not_none hs h
    · exact find?_id_not_none he h
  simp only [POST]
  rw [if_neg hcond1, if_neg hcond2]
  rw [hfb]

/-- Witness for C2 at a concrete four-box request with an unreachable AI
bridge. -/
theorem claim_C2_failure_fallback_witness :
    getOptimizedRoute fourBoxes "a" "d" none = fallbackRoute fourBoxes "a" "d" ∧
    (fallbackRoute fourBoxes "a" "d").path = ["a", "b", "c", "d"] :=
  ⟨(claim_C2_failure_fallback fourBoxes "a" "d" none (by decide) (by decide)
      (by decide) (by decide) (Or.inl rfl)).1, by decide⟩

/-- C3 counterexample: an AI payload whose path validates but whose
connections list is empty is accepted unchanged, so an accepted Route Result
need not have `connections.length = orderedNodeIds.length - 1`; the code only
checks that the payload's connections field is an array. -/
theorem claim_C3_counterexample :
    validateResult twoBoxes "a" "b" exCandNoConns = true ∧
    getOptimizedRoute twoBoxes "a" "b" (some exCandNoConns) = exCandNoConns ∧
    exCandNoConns.connections.length ≠ exCandNoConns.path.length - 1 := by
  refine ⟨by decide, ?_, by decide⟩
  exact getOptimizedRoute_valid twoBoxes "a" "b" exCandNoConns (by decide)
    (by decide) (by decide)

/-- C3 (amended): every fallback-derived Route Result has a connections list
of length `len(orderedNodeIds) - 1` whose i-th connection links consecutive
elements of the path with fromSide bottom and toSide top and the pending
duration sentinel; AI-derived accepted results are only checked to have an
array of connections, so the chain shape is not guaranteed for them. -/
theorem claim_C3_fallback_connections (boxes : List Box) (s e : String) :
    (getOptimizedRoute boxes s e none).connections.length =
      (getOptimizedRoute boxes s e none).path.length - 1 ∧
    (∀ i, i + 1 < (getOptimizedRoute boxes s e none).path.length →
      (getOptimizedRoute boxes s e none).connections.get? i =
        some (Conn.mk ((getOptimizedRoute boxes s e none).path.getD i "") Side.bottom
          ((getOptimizedRoute boxes s e none).path.getD (i + 1) "") Side.top
          (some "Calculating..."))) := by
  rw [getOptimizedRoute_none]
  exact ⟨chainConns_length _, fun i hi => chainConns_get? _ i hi⟩

/-- Witness for the amended C3 at a concrete input. -/
theorem claim_C3_fallback_connections_witness :
    (getOptimizedRoute fourBoxes "a" "d" none).connections.get? 0 =
      some (Conn.mk "a" Side.bottom "b" Side.top (some "Calculating...")) :=
  (claim_C3_fallback_connections fourBoxes "a" "d").2 0 (by decide)

/-- C4 counterexample: a request with a single box whose id is both start and
end id is not rejected — the handler reports success with the degenerate
two-stop route `["a", "a"]` — so "fewer than 2 nodes" is not part of the
enforced input contract. -/
theorem claim_C4_counterexample :
    POST (some [exBoxA]) "a" "a" none =
      PostResponse.success ["a", "a"]
        [Conn.mk "a" Side.bottom "a" Side.top (some "Calculating...")]
        "Optimized route found with 2 stops" ∧
    [exBoxA].length < 2 := by
  constructor
  · rfl
  · decide

/-- C4 (amended): the `POST` handler rejects, always with status 400, exactly
the requests with a missing boxes field, an empty (falsy) start or end id, or
a start or end id that is not among the boxes' ids; a request with fewer than
2 boxes whose start and end ids are found is not rejected, and the AI outcome
never influences rejection. -/
theorem claim_C4_input_contract : ∀ (boxes? : Option (List Box)) (s e : String)
    (ai : Option RouteResult),
    ((∃ st msg, POST boxes? s e ai = PostResponse.error st msg) ↔
      (boxes? = none ∨ s = "" ∨ e = "" ∨
        ∃ boxes, boxes? = some boxes ∧
          (s ∉ boxes.map Box.id ∨ e ∉ boxes.map Box.id))) ∧
    (∀ st msg, POST boxes? s e ai = PostResponse.error st msg → st = 400) := by
  intro boxes? s e ai
  cases boxes? with
  | none =>
      constructor
      · constructor
        · intro _
          exact Or.inl rfl
        · intro _
          exact ⟨400, "Missing required fields: boxes, startBoxId, endBoxId", rfl⟩
      · intro st msg h
        have h400 : PostResponse.error 400
            "Missing required fields: boxes, startBoxId, endBoxId" =
            PostResponse.error st msg := h
        cases h400
        rfl
  | some boxes =>
      by_cases h1 : s = "" ∨ e = ""
      · have hP : POST (some boxes) s e ai = PostResponse.error 400
            "Missing required fields: boxes, startBoxId, endBoxId" := by
          simp only [POST]
          rw [if_pos h1]
        constructor
        · constructor
          · intro _
            rcases h1 with h | h
            · exact Or.inr (Or.inl h)
            · exact Or.inr (Or.inr (Or.inl h))
          · intro _
            exact ⟨400, _, hP⟩
        · intro st msg h
          rw [hP] at h
          cases h
          rfl
      · by_cases h2 : (boxes.find? (fun b => b.id = s)).isNone = true ∨
            (boxes.find? (fun b => b.id = e)).isNone = true
        · have hP : POST (some boxes) s e ai = PostResponse.error 400
              "Start or end box not found" := by
            simp only [POST]
            rw [if_neg h1, if_pos h2]
          constructor
          · constructor
            · intro _
              refine Or.inr (Or.inr (Or.inr ⟨boxes, rfl, ?_⟩))
              rcases h2 with h | h
              · exact Or.inl (find?_isNone_iff.mp h)
              · exact Or.inr (find?_isNone_iff.mp h)
            · intro _
              exact ⟨400, _, hP⟩
          · intro st msg h
            rw [hP] at h
            cases h
            rfl
        · have hP : POST (some boxes) s e ai = PostResponse.success
              (getOptimizedRoute boxes s e ai).path
              (getOptimizedRoute boxes s e ai).connections
              ("Optimized route found with " ++
                toString (getOptimizedRoute boxes s e ai).path.length ++ " stops") := by
            simp only [POST]
            rw [if_neg h1, if_neg h2]
          constructor
          · constructor
            · intro ⟨st, msg, h⟩
              rw [hP] at h
              cases h
            · intro hcon
              exfalso
              rcases hcon with h | h | h | ⟨boxes', heq, h⟩
              · cases h
              · exact h1 (Or.inl h)
              · exact h1 (Or.inr h)
              · cases heq
                rcases h with h | h
                · exact h2 (Or.inl (find?_isNone_iff.mpr h))
                · exact h2 (Or.inr (find?_isNone_iff.mpr h))
          · intro st msg h
            rw [hP] at h
            cases h

/-- Witness for the amended C4: a request without a boxes field is rejected. -/
theorem claim_C4_input_contract_witness :
    ∃ st msg, POST none "a" "b" none = PostResponse.error st msg :=
  (claim_C4_input_contract none "a" "b" none).1.mpr (Or.inl rfl)

/-- C5 counterexample: the three-box cycle a—b—c—a is accepted by
`areAllBoxesConnected` although it is not a simple path: it has as many
connections as boxes (a simple path on n nodes has at most n-1 edges) and
every box touches exactly two connections, so there is no path endpoint. -/
theorem claim_C5_counterexample :
    areAllBoxesConnected triBoxes triConns = true ∧
    triConns.length = triBoxes.length ∧ 2 ≤ triBoxes.length ∧
    (∀ b ∈ triBoxes, (adjOf triBoxes triConns b.id).length = 2) := by
  refine ⟨?_, by decide, by decide, by decide⟩
  show ((dfsLoop triBoxes triConns ["a"] ∅).card == triBoxes.length) = true
  rw [dfsLoop_cons_not_mem]
  show ((dfsLoop triBoxes triConns ["c", "b"] {"a"}).card == triBoxes.length) = true
  rw [dfsLoop_cons_not_mem]
  show ((dfsLoop triBoxes triConns ["b", "b"] (insert "c" {"a"})).card ==
    triBoxes.length) = true
  rw [dfsLoop_cons_not_mem]
  show ((dfsLoop triBoxes triConns ["b"] (insert "b" (insert "c" {"a"}))).card ==
    triBoxes.length) = true
  rw [dfsLoop_cons_mem]
  show ((dfsLoop triBoxes triConns [] (insert "b" (insert "c" {"a"}))).card ==
    triBoxes.length) = true
  rw [dfsLoop_nil]
  all_goals decide

/-- C5 (amended): the connectivity check that gates export returns true if
and only if every box is reachable from every other box via the connection
set treated as undirected; it does not additionally require a simple-path
interpretation (cycles are accepted). Stated for a non-empty box list with
distinct ids whose connections reference existing boxes. -/
theorem claim_C5_connectivity_iff (boxes : List Box) (conns : List Conn)
    (hne : boxes ≠ []) (hnd : (boxes.map Box.id).Nodup)
    (hEnds : ∀ c ∈ conns, c.fromId ∈ idsOf boxes ∧ c.toId ∈ idsOf boxes) :
    (areAllBoxesConnected boxes conns = true ↔
      ∀ b1 ∈ boxes, ∀ b2 ∈ boxes, Reaches boxes conns b1.id b2.id) :=
  areAllBoxesConnected_iff boxes conns hne hnd hEnds

/-- Witness for the amended C5 at the concrete triangle canvas. -/
theorem claim_C5_connectivity_iff_witness :
    triBoxes ≠ [] ∧ (triBoxes.map Box.id).Nodup ∧
    (∀ c ∈ triConns, c.fromId ∈ idsOf triBoxes ∧ c.toId ∈ idsOf triBoxes) ∧
    (areAllBoxesConnected triBoxes triConns = true ↔
      ∀ b1 ∈ triBoxes, ∀ b2 ∈ triBoxes, Reaches triBoxes triConns b1.id b2.id) :=
  ⟨by decide, by decide, by decide,
    claim_C5_connectivity_iff triBoxes triConns (by decide) (by decide) (by decide)⟩

/-- C6: on a canvas whose N ≥ 2 boxes and N-1 connections realize a simple
chain, `buildOrderedRoute` returns all N boxes in chain order — forward when
the degree-1 endpoint it starts from is the chain's head, backward when it is
the chain's tail — so the full node set is linearized regardless of which of
the two valid endpoints the traversal starts from. -/
theorem claim_C6_linearize_chain (boxes : List Box) (conns : List Conn)
    (chain : List String) (h2 : 2 ≤ chain.length) (hnd : chain.Nodup)
    (hperm : List.Perm (boxes.map Box.id) chain)
    (hreal : RealizesChain chain conns) :
    ((buildOrderedRoute boxes conns).map Box.id = chain ∨
     (buildOrderedRoute boxes conns).map Box.id = chain.reverse) ∧
    (buildOrderedRoute boxes conns).length = boxes.length := by
  have h := buildOrderedRoute_chain boxes conns chain h2 hnd hperm hreal
  have hblen : boxes.length = chain.length := by
    have hl := hperm.length_eq
    rwa [List.length_map] at hl
  refine ⟨h, ?_⟩
  rcases h with h | h
  · have hc := congrArg List.length h
    rw [List.length_map] at hc
    omega
  · have hc := congrArg List.length h
    rw [List.length_map, List.length_reverse] at hc
    omega

/-- Witness for C6 at a concrete three-box chain with shuffled box order and
reversed, reordered connections. -/
theorem claim_C6_linearize_chain_witness :
    2 ≤ (["a", "b", "c"] : List String).length ∧
    (["a", "b", "c"] : List String).Nodup ∧
    RealizesChain ["a", "b", "c"] chainConnsEx ∧
    (((buildOrderedRoute chainBoxes chainConnsEx).map Box.id = ["a", "b", "c"] ∨
      (buildOrderedRoute chainBoxes chainConnsEx).map Box.id = ["c", "b", "a"]) ∧
     (buildOrderedRoute chainBoxes chainConnsEx).length = chainBoxes.length) := by
  refine ⟨by decide, by decide, by decide, ?_⟩
  have h := claim_C6_linearize_chain chainBoxes chainConnsEx ["a", "b", "c"]
    (by decide) (by decide) (by decide) (by decide)
  simpa using h

/-- C7: on a canvas with at least two boxes that is not a single undirected
connected component, the connectivity pre-check reports false, the export
operation is refused with the not-connected rejection (no URL is produced),
and the Route Linearizer returns a strict subset of the boxes. -/
theorem claim_C7_disconnected_refusal (boxes : List Box) (conns : List Conn)
    (h2 : 2 ≤ boxes.length) (hnd : (boxes.map Box.id).Nodup)
    (hEnds : ∀ c ∈ conns, c.fromId ∈ idsOf boxes ∧ c.toId ∈ idsOf boxes)
    (hdisc : ¬ ∀ b1 ∈ boxes, ∀ b2 ∈ boxes, Reaches boxes conns b1.id b2.id) :
    areAllBoxesConnected boxes conns = false ∧
    (∀ enc, exportToGoogleMaps enc boxes conns = ExportResult.rejectedNotConnected) ∧
    (∀ b ∈ buildOrderedRoute boxes conns, b ∈ boxes) ∧
    (buildOrderedRoute boxes conns).length < boxes.length := by
  have hne : boxes ≠ [] := by
    intro h
    rw [h] at h2
    simp at h2
  have hfalse : areAllBoxesConnected boxes conns = false :=
    areAllBoxesConnected_false boxes conns hne hnd hEnds hdisc
  obtain ⟨sb, _, hmem, _, _⟩ := buildOrderedRoute_sound boxes conns h2
  exact ⟨hfalse, fun enc => exportToGoogleMaps_rejected enc boxes conns hfalse,
    hmem, buildOrderedRoute_strict_subset boxes conns h2 hnd hEnds hdisc⟩

/-- Witness for C7 at the concrete disconnected canvas: three boxes, one
connection joining only a and b. -/
theorem claim_C7_disconnected_refusal_witness :
    areAllBoxesConnected triBoxes discConns = false ∧
    (∀ enc, exportToGoogleMaps enc triBoxes discConns =
      ExportResult.rejectedNotConnected) ∧
    (∀ b ∈ buildOrderedRoute triBoxes discConns, b ∈ triBoxes) ∧
    (buildOrderedRoute triBoxes discConns).length < triBoxes.length := by
  have hclosed : ∀ a ∈ ({"a", "b"} : Finset String),
      ∀ b ∈ adjOf triBoxes discConns a, b ∈ ({"a", "b"} : Finset String) := by decide
  have hnr : ¬ Reaches triBoxes discConns "a" "c" := by
    intro hr
    have hc := reaches_subset_closed triBoxes discConns {"a", "b"} hclosed
      (by decide) hr
    exact absurd hc (by decide)
  refine claim_C7_disconnected_refusal triBoxes discConns (by decide) (by decide)
    (by decide) ?_
  intro hall
  exact hnr (hall exBoxA (by decide) exBoxC (by decide))

/-- C8 counterexample: the duration extraction keys on digits, not on
hour/minute tokens — a response text containing a digit but no `h`/`m`
character at all still yields a non-`Unknown` result (here `"42 "` including
the greedily consumed trailing space). -/
theorem claim_C8_counterexample :
    fetchTravelTime "x" "y" (PlanOutcome.response true (some "42 dollars")) = "42 " ∧
    "42 " ≠ "Unknown" ∧
    (∀ c ∈ "42 dollars".data, c.toLower ≠ 'h' ∧ c.toLower ≠ 'm') := by
  refine ⟨?_, by decide, by decide⟩
  rfl

/-- C8 (amended): the travel-time lookup is a total function that returns the
sentinel `"Unknown"` on a thrown fetch error, a falsy `ok` flag, a missing
text field, or a text containing no digit; otherwise it returns the first
substring matched by the tolerant duration pattern, whose hour/minute tokens
are optional. When the new connection's endpoint boxes are missing or an
address is blank after trimming, the lookup is not invoked and the pending
duration is cleared to `undefined` instead of the sentinel. -/
theorem claim_C8_travel_time_total :
    (∀ a b, fetchTravelTime a b PlanOutcome.fetchError = "Unknown") ∧
    (∀ a b t?, fetchTravelTime a b (PlanOutcome.response false t?) = "Unknown") ∧
    (∀ a b ok, fetchTravelTime a b (PlanOutcome.response ok none) = "Unknown") ∧
    (∀ a b ok t, (∀ c ∈ t.data, ¬ c.isDigit = true) →
      fetchTravelTime a b (PlanOutcome.response ok (some t)) = "Unknown") ∧
    (∀ boxes conns cfId cfSide boxId side outcome,
      ¬ cfId = boxId →
      conns.find? (fun c => joinsPair c cfId boxId) = none →
      (∀ fb tb, boxes.find? (fun b => b.id = cfId) = some fb →
        boxes.find? (fun b => b.id = boxId) = some tb →
        ¬(fb.address ≠ "" ∧ fb.address.trim ≠ "" ∧
          tb.address ≠ "" ∧ tb.address.trim ≠ "")) →
      finishConnection boxes conns (some (cfId, cfSide)) boxId side outcome =
        FinishResult.mk (conns ++ [Conn.mk cfId cfSide boxId side none]) false) := by
  refine ⟨fetchTravelTime_fetchError, fetchTravelTime_notOk, fetchTravelTime_noText,
    fetchTravelTime_noDigit, ?_⟩
  intro boxes conns cfId cfSide boxId side outcome hne hfind hinvalid
  rcases finishConnection_cases boxes conns cfId cfSide boxId side outcome hne hfind
    with ⟨fb, tb, hfb, htb, haddr, _⟩ | h
  · exact absurd haddr (hinvalid fb tb hfb htb)
  · exact h

/-- Witness for the amended C8: the lookup is skipped and the duration
cleared for a connection whose target box has an empty address, and a
digit-free response yields the sentinel. -/
theorem claim_C8_travel_time_total_witness :
    finishConnection [exBoxA, exBoxD] [] (some ("a", Side.top)) "d" Side.top
      PlanOutcome.fetchError =
      FinishResult.mk [Conn.mk "a" Side.top "d" Side.top none] false ∧
    fetchTravelTime "q" "r" (PlanOutcome.response true (some "soon")) = "Unknown" := by
  constructor
  · refine claim_C8_travel_time_total.2.2.2.2 [exBoxA, exBoxD] [] "a" Side.top "d"
      Side.top PlanOutcome.fetchError (by decide) rfl ?_
    intro fb tb hfb htb
    have hfb' : (some exBoxA : Option Box) = some fb := hfb
    have htb' : (some exBoxD : Option Box) = some tb := htb
    cases hfb'
    cases htb'
    intro h
    exact h.2.2.1 rfl
  · exact claim_C8_travel_time_total.2.2.2.1 "q" "r" true "soon" (by decide)

/-- C9: finishing a connection preserves the canvas invariant "no self-loops
and at most one connection per unordered pair": releasing on the starting box
leaves the connection set unchanged, releasing on a box already connected to
the starting box in either direction leaves it unchanged, and otherwise
exactly one new connection with distinct endpoints is appended. -/
theorem claim_C9_connection_invariant (boxes : List Box) (conns : List Conn)
    (cf : Option (String × Side)) (boxId : String) (side : Side)
    (outcome : PlanOutcome) (hinv : ConnInvariant conns) :
    ConnInvariant (finishConnection boxes conns cf boxId side outcome).connections ∧
    (∀ s, cf = some (boxId, s) →
      (finishConnection boxes conns cf boxId side outcome).connections = conns) ∧
    (∀ cfId s, cf = some (cfId, s) → (∃ c ∈ conns, joinsPair c cfId boxId = true) →
      (finishConnection boxes conns cf boxId side outcome).connections = conns) ∧
    ((finishConnection boxes conns cf boxId side outcome).connections = conns ∨
      ∃ cfId cfS d, cf = some (cfId, cfS) ∧ cfId ≠ boxId ∧
        (finishConnection boxes conns cf boxId side outcome).connections =
          conns ++ [Conn.mk cfId cfS boxId side d]) := by
  cases cf with
  | none =>
      rw [finishConnection_none_cf]
      refine ⟨hinv, ?_, ?_, Or.inl rfl⟩
      · intro s h
        cases h
      · intro cfId s h
        cases h
  | some p =>
      obtain ⟨cfId, cfSide⟩ := p
      by_cases hself : cfId = boxId
      · rw [finishConnection_self boxes conns cfId cfSide boxId side outcome hself]
        exact ⟨hinv, fun _ _ => rfl, fun _ _ _ _ => rfl, Or.inl rfl⟩
      · cases hf : conns.find? (fun c => joinsPair c cfId boxId) with
        | some c0 =>
            rw [finishConnection_dup boxes conns cfId cfSide boxId side outcome
              hself c0 hf]
            exact ⟨hinv, fun _ _ => rfl, fun _ _ _ _ => rfl, Or.inl rfl⟩
        | none =>
            have hno : ∀ c ∈ conns, ¬ joinsPair c cfId boxId = true := by
              rw [List.find?_eq_none] at hf
              exact hf
            have hdup : ∀ (cfId' : String) (s : Side),
                some (cfId, cfSide) = some (cfId', s) →
                (∃ c ∈ conns, joinsPair c cfId' boxId = true) →
                (finishConnection boxes conns (some (cfId, cfSide)) boxId side
                  outcome).connections = conns := by
              intro cfId' s h hex
              cases h
              obtain ⟨c, hc, hjp⟩ := hex
              exact absurd hjp (hno c hc)
            rcases finishConnection_cases boxes conns cfId cfSide boxId side outcome
              hself hf with ⟨fb, tb, _, _, _, heq⟩ | heq <;> rw [heq]
            · refine ⟨connInvariant_append conns _ hinv hself hno, ?_, ?_, ?_⟩
              · intro s h
                cases h
                exact absurd rfl hself
              · intro cfId' s h hex
                have := hdup cfId' s h hex
                rw [heq] at this
                exact this
              · exact Or.inr ⟨cfId, cfSide, _, rfl, hself, rfl⟩
            · refine ⟨connInvariant_append conns _ hinv hself hno, ?_, ?_, ?_⟩
              · intro s h
                cases h
                exact absurd rfl hself
              · intro cfId' s h hex
                have := hdup cfId' s h hex
                rw [heq] at this
                exact this
              · exact Or.inr ⟨cfId, cfSide, none, rfl, hself, rfl⟩

/-- Witness for C9 at a concrete fresh connection between two boxes. -/
theorem claim_C9_connection_invariant_witness :
    ConnInvariant (finishConnection [exBoxA, exBoxB] [] (some ("a", Side.bottom))
      "b" Side.top PlanOutcome.fetchError).connections :=
  (claim_C9_connection_invariant [exBoxA, exBoxB] [] (some ("a", Side.bottom))
    "b" Side.top PlanOutcome.fetchError (by decide)).1

/-- C10: deleting a box removes exactly that box and exactly the connections
touching its id: membership in the new lists is membership in the old lists
plus the id conditions, the surviving lists are sublists (order and every
field preserved), and multiplicities of surviving entries are unchanged. -/
theorem claim_C10_delete_frame (boxes : List Box) (conns : List Conn) (id : String) :
    (∀ b, b ∈ (deleteBox boxes conns id).1 ↔ (b ∈ boxes ∧ b.id ≠ id)) ∧
    (∀ c, c ∈ (deleteBox boxes conns id).2 ↔
      (c ∈ conns ∧ c.fromId ≠ id ∧ c.toId ≠ id)) ∧
    List.Sublist (deleteBox boxes conns id).1 boxes ∧
    List.Sublist (deleteBox boxes conns id).2 conns ∧
    (∀ b : Box, b.id ≠ id → (deleteBox boxes conns id).1.count b = boxes.count b) ∧
    (∀ c : Conn, c.fromId ≠ id → c.toId ≠ id →
      (deleteBox boxes conns id).2.count c = conns.count c) := by
  unfold deleteBox
  refine ⟨?_, ?_, List.filter_sublist _, List.filter_sublist _, ?_, ?_⟩
  · intro b
    rw [List.mem_filter]
    simp
  · intro c
    rw [List.mem_filter]
    simp
  · intro b hb
    exact List.count_filter (by simpa using hb)
  · intro c h1 h2
    exact List.count_filter (by simp [h1, h2])

/-- Witness for C10 at a concrete deletion. -/
theorem claim_C10_delete_frame_witness :
    (exBoxA ∈ (deleteBox fourBoxes triConns "b").1 ↔
      (exBoxA ∈ fourBoxes ∧ exBoxA.id ≠ "b")) ∧
    (deleteBox fourBoxes triConns "b").1.count exBoxA = fourBoxes.count exBoxA :=
  ⟨(claim_C10_delete_frame fourBoxes triConns "b").1 exBoxA,
    (claim_C10_delete_frame fourBoxes triConns "b").2.2.2.2.1 exBoxA (by decide)⟩
